import Mathlib

/-! Shallow embedding of the mini-rtos periodic scheduler.

Embedding of `src/scheduler.hpp` and `src/scheduler.cpp`.

* Time points and durations are nanosecond counts (`Int`); signed overflow is
  undefined behaviour in the source and is outside the model.
* The `uint64_t` fields of `TaskStats` are `Nat` with an explicit `% 2 ^ 64`
  at every arithmetic step; statements that need a counter not to have
  wrapped say so.
* `std::chrono::steady_clock` and `std::this_thread::sleep_until` are modelled
  by `World`: a monotonic clock whose k-th reading lies `elapse k` nanoseconds
  after the previous event. The time a work callback takes is the time that
  elapses before the reading that follows it.
* `std::sort` is a parameter (`Env.sort`) constrained by the contract the C++
  standard gives it (`StdSortContract`); `std_sort` mirrors the implementation
  of libstdc++ for statements about what a real toolchain does.
* Loops that need not terminate carry fuel and report `Outcome.spin`, together
  with the state reached, when it runs out.
-/

namespace MiniRtos

/-! ## TaskStats -/

/-- Value of `static_cast<uint64_t>(x)` for a signed 64-bit `x`. -/
def to_u64 (x : Int) : Nat := (x % (2 ^ 64 : Int)).toNat

/-- Mirror of `struct TaskStats`. -/
structure TaskStats where
  releases : Nat
  overruns : Nat
  jitter_min_ns : Int
  jitter_max_ns : Int
  jitter_sum_ns : Nat
  exec_min_ns : Int
  exec_max_ns : Int
  exec_sum_ns : Nat
deriving DecidableEq, Repr

/-- The value-initialised `TaskStats{}`: every member is zero. -/
def TaskStats.zero : TaskStats := ⟨0, 0, 0, 0, 0, 0, 0, 0⟩

/-- Mirror of `TaskStats::observe`. -/
def TaskStats.observe (s : TaskStats) (jitter_ns exec_ns : Int) (overrun : Bool) : TaskStats :=
  let releases := (s.releases + 1) % 2 ^ 64
  { releases := releases
    overruns := if overrun then (s.overruns + 1) % 2 ^ 64 else s.overruns
    jitter_min_ns := if releases = 1 then jitter_ns else min s.jitter_min_ns jitter_ns
    jitter_max_ns := if releases = 1 then jitter_ns else max s.jitter_max_ns jitter_ns
    jitter_sum_ns := (s.jitter_sum_ns + (if jitter_ns < 0 then 0 else to_u64 jitter_ns)) % 2 ^ 64
    exec_min_ns := if releases = 1 then exec_ns else min s.exec_min_ns exec_ns
    exec_max_ns := if releases = 1 then exec_ns else max s.exec_max_ns exec_ns
    exec_sum_ns := (s.exec_sum_ns + to_u64 exec_ns) % 2 ^ 64 }

/-- One call of `observe`: its three arguments. -/
structure Obs where
  jitter : Int
  exec : Int
  overrun : Bool
deriving DecidableEq, Repr

/-- A sequence of `observe` calls, oldest first. -/
def TaskStats.observe_all (s : TaskStats) (obs : List Obs) : TaskStats :=
  obs.foldl (fun acc o => acc.observe o.jitter o.exec o.overrun) s

/-! ## Task descriptors -/

/-- Mirror of `enum class Criticality`. -/
inductive Criticality where
  | Hard
  | BestEffort
deriving DecidableEq, Repr

/-- Mirror of `struct TaskSpec`. The callable `fn` has no value the scheduler
inspects: invoking it is an event of the `World` (a `DispatchRec` with
`ran = true`), and the time it takes is read off the clock. -/
structure TaskSpec where
  name : String
  period : Int
  priority : Int
  crit : Criticality
deriving DecidableEq, Repr

/-- Mirror of `struct TaskRuntime`. -/
structure TaskRuntime where
  spec : TaskSpec
  next_release : Int
  stats : TaskStats
deriving DecidableEq, Repr

/-- Mirror of the data members of `class Scheduler`. -/
structure Scheduler where
  lateness_drop_threshold : Int
  tasks_ : List TaskRuntime
  started_ : Bool
deriving DecidableEq, Repr

/-- A default-constructed `Scheduler`. -/
def Scheduler.init : Scheduler := ⟨0, [], false⟩

/-! ## Environment: clock, callbacks, std::sort -/

/-- One execution of the body of the dispatch loop, as seen from outside:
which task (its index in `tasks_`), the clock reading taken at dispatch, the
reading taken after the work returned (equal to `start` for a dropped
release), and whether `fn` was invoked. -/
structure DispatchRec where
  task : Nat
  start : Int
  finish : Int
  ran : Bool
deriving DecidableEq, Repr

/-- The world outside the scheduler: the steady clock, the number of clock
readings taken so far, and the record of dispatches, oldest first. -/
structure World where
  clk : Int
  tick : Nat
  trace : List DispatchRec
deriving DecidableEq, Repr

/-- What the scheduler does not control: how much time passes before each
clock reading, and which conforming `std::sort` the toolchain supplies. -/
structure Env where
  elapse : Nat → Nat
  sort : (Nat → Nat → Bool) → List Nat → List Nat

/-- Model of `std::chrono::steady_clock::now()`: time never runs backwards. -/
def World.now (env : Env) (w : World) : Int × World :=
  let c := w.clk + env.elapse w.tick
  (c, { w with clk := c, tick := w.tick + 1 })

/-- Model of `std::this_thread::sleep_until(t)`: returns no earlier than `t`. -/
def World.sleep_until (w : World) (t : Int) : World :=
  { w with clk := max w.clk t }

/-- Append one dispatch record. -/
def World.record (w : World) (r : DispatchRec) : World :=
  { w with trace := w.trace ++ [r] }

/-- Result of running code that contains loops: it finished, it was still
inside a loop when the fuel ran out (with the state reached by then), or it
read `tasks_[0]` of an empty vector. -/
inductive Outcome (α : Type) where
  | done (a : α)
  | spin (a : α)
  | fault
deriving DecidableEq, Repr

/-! ## Scheduler operations -/

/-- Mirror of `Scheduler::add_task`: `tasks_.push_back(TaskRuntime{spec, {}, {}})`. -/
def Scheduler.add_task (s : Scheduler) (spec : TaskSpec) : Scheduler :=
  { s with tasks_ := s.tasks_ ++ [⟨spec, 0, TaskStats.zero⟩] }

/-- Mirror of `Scheduler::start`. -/
def Scheduler.start (s : Scheduler) (t0 : Int) : Scheduler :=
  { s with
    tasks_ := s.tasks_.map (fun t => { t with next_release := t0 + t.spec.period })
    started_ := true }

/-- Mirror of `do { next_release += period; } while (next_release <= bound);`. -/
def catch_up : Nat → Int → Int → Int → Outcome Int
  | 0, nr, _, _ => .spin nr
  | fuel + 1, nr, period, bound =>
    if nr + period ≤ bound then catch_up fuel (nr + period) period bound
    else .done (nr + period)

/-- Mirror of the body of `for (auto* t : ready)` in `run_once_until`, for the
task at index `i`. -/
def dispatch (env : Env) (thr : Int) (fuel : Nat) (i : Nat) (t : TaskRuntime) (w : World) :
    Outcome (TaskRuntime × World) :=
  let release := t.next_release
  let start := (w.now env).1
  let w1 := (w.now env).2
  let jitter := start - release
  if t.spec.crit = Criticality.BestEffort ∧ thr > 0 ∧ start - release > thr then
    let w2 := w1.record ⟨i, start, start, false⟩
    match catch_up fuel t.next_release t.spec.period start with
    | .done nr =>
      .done ({ t with next_release := nr, stats := t.stats.observe (max 0 jitter) 0 false }, w2)
    | .spin nr => .spin ({ t with next_release := nr }, w2)
    | .fault => .fault
  else
    let finish := (w1.now env).1
    let w2 := ((w1.now env).2).record ⟨i, start, finish, true⟩
    let exec := finish - start
    let overrun := decide (finish > release + t.spec.period)
    let stats := t.stats.observe (max 0 jitter) exec overrun
    match catch_up fuel t.next_release t.spec.period finish with
    | .done nr => .done ({ t with next_release := nr, stats := stats }, w2)
    | .spin nr => .spin ({ t with next_release := nr, stats := stats }, w2)
    | .fault => .fault

/-- Mirror of the search for the earliest release; `none` is the read of
`tasks_[0]` on an empty vector. -/
def earliest : List TaskRuntime → Option Int
  | [] => none
  | t0 :: ts => some ((t0 :: ts).foldl (fun e t => min e t.next_release) t0.next_release)

/-- Mirror of the collection of ready tasks: indices into `tasks_`, in
registration order, of the tasks with `next_release <= now`. -/
def collect_ready (ts : List TaskRuntime) (now : Int) : List Nat :=
  (List.range ts.length).filter
    (fun i => match ts[i]? with
      | some t => decide (t.next_release ≤ now)
      | none => false)

/-- Priority of the task a ready-list entry points to. -/
def priority_of (ts : List TaskRuntime) (i : Nat) : Int :=
  match ts[i]? with
  | some t => t.spec.priority
  | none => 0

/-- The comparator handed to `std::sort`: `a->spec.priority > b->spec.priority`. -/
def higher_first (ts : List TaskRuntime) (a b : Nat) : Bool :=
  decide (priority_of ts a > priority_of ts b)

/-- Mirror of the whole `for (auto* t : ready) { ... }` loop. -/
def dispatch_all (env : Env) (thr : Int) (fuel : Nat) :
    List Nat → List TaskRuntime → World → Outcome (List TaskRuntime × World)
  | [], ts, w => .done (ts, w)
  | i :: rest, ts, w =>
    match ts[i]? with
    | none => .fault
    | some t =>
      match dispatch env thr fuel i t w with
      | .done (t1, w1) => dispatch_all env thr fuel rest (ts.set i t1) w1
      | .spin (t1, w1) => .spin (ts.set i t1, w1)
      | .fault => .fault

/-- The order in which one wake cycle dispatches, given the reading `now`. -/
def dispatch_order (env : Env) (ts : List TaskRuntime) (now : Int) : List Nat :=
  env.sort (higher_first ts) (collect_ready ts now)

/-- Mirror of one iteration of the `while` loop of `run_once_until`. -/
def wake_cycle (env : Env) (fuel : Nat) (s : Scheduler) (w : World) :
    Outcome (Scheduler × World) :=
  match earliest s.tasks_ with
  | none => .fault
  | some e =>
    let w1 := w.sleep_until e
    let now := (w1.now env).1
    let w2 := (w1.now env).2
    match dispatch_all env s.lateness_drop_threshold fuel
        (dispatch_order env s.tasks_ now) s.tasks_ w2 with
    | .done (ts, w3) => .done ({ s with tasks_ := ts }, w3)
    | .spin (ts, w3) => .spin ({ s with tasks_ := ts }, w3)
    | .fault => .fault

/-- Mirror of `Scheduler::run_once_until`; `cycles` bounds the iterations of
the `while` loop, `fuel` those of each catch-up loop. -/
def run_once_until (env : Env) (fuel : Nat) :
    Nat → Int → Scheduler → World → Outcome (Scheduler × World)
  | 0, _, s, w => .spin (s, w)
  | cycles + 1, stop, s, w =>
    if (w.now env).1 < stop then
      match wake_cycle env fuel s (w.now env).2 with
      | .done (s1, w1) => run_once_until env fuel cycles stop s1 w1
      | .spin r => .spin r
      | .fault => .fault
    else .done (s, (w.now env).2)

/-- Mirror of `Scheduler::run_for`; `dur` is in seconds. -/
def run_for (env : Env) (fuel cycles : Nat) (dur : Int) (s : Scheduler) (w : World) :
    Outcome (Scheduler × World) :=
  let s1 := if s.started_ then s else s.start (w.now env).1
  let w1 := if s.started_ then w else (w.now env).2
  run_once_until env fuel cycles ((w1.now env).1 + dur * 1000000000) s1 (w1.now env).2

/-- The requirement `std::sort` puts on its comparator: a strict weak order
(irreflexive, transitive, with transitive incomparability). -/
structure StrictWeak (cmp : Nat → Nat → Bool) : Prop where
  irrefl : ∀ a, cmp a a = false
  trans : ∀ a b c, cmp a b = true → cmp b c = true → cmp a c = true
  incomp : ∀ a b c, cmp a b = false → cmp b a = false → cmp b c = false → cmp c b = false →
    cmp a c = false ∧ cmp c a = false

/-- The contract of `std::sort(first, last, comp)`: the result is a
rearrangement of the input, and for a comparator that is a strict weak order
no element is ordered before one that precedes it in the result. Nothing is
promised about the relative order of equivalent elements. -/
structure StdSortContract (sort : (Nat → Nat → Bool) → List Nat → List Nat) : Prop where
  perm : ∀ cmp l, (sort cmp l).Perm l
  sorted : ∀ cmp l, StrictWeak cmp → (sort cmp l).Pairwise (fun a b => cmp b a = false)

/-! ## Specification vocabulary -/

/-- The value `m` is the minimum of the list `l`: it occurs in it and nothing in it is smaller. -/
def IsMinOf (m : Int) (l : List Int) : Prop := m ∈ l ∧ ∀ x ∈ l, m ≤ x

/-- The value `m` is the maximum of the list `l`: it occurs in it and nothing in it is larger. -/
def IsMaxOf (m : Int) (l : List Int) : Prop := m ∈ l ∧ ∀ x ∈ l, x ≤ m

/-- The state an outcome carries, finished or not. -/
def Outcome.state {α : Type} : Outcome α → Option α
  | .done a => some a
  | .spin a => some a
  | .fault => none

/-- The reading `start` taken by a dispatch that begins in world `w`. -/
def start_time (env : Env) (w : World) : Int := (w.now env).1

/-- The reading `finish` taken after the work of a dispatch that begins in
world `w` has returned. -/
def finish_time (env : Env) (w : World) : Int := ((w.now env).2.now env).1

/-- The admission check of the loop body: the release is dropped. -/
def is_dropped (thr : Int) (t : TaskRuntime) (start : Int) : Bool :=
  decide (t.spec.crit = Criticality.BestEffort ∧ thr > 0 ∧ start - t.next_release > thr)

/-- The time the catch-up loop of a dispatch compares against: `start` for a
dropped release, `finish` for one that ran. -/
def decision_time (env : Env) (thr : Int) (t : TaskRuntime) (w : World) : Int :=
  if is_dropped thr t (start_time env w) then start_time env w else finish_time env w

/-- The world after a dispatch of task `i` that ran the work. -/
def world_after_run (env : Env) (i : Nat) (w : World) : World :=
  ((w.now env).2.now env).2.record ⟨i, start_time env w, finish_time env w, true⟩

/-- The world after a dispatch of task `i` that dropped the release. -/
def world_after_drop (env : Env) (i : Nat) (w : World) : World :=
  (w.now env).2.record ⟨i, start_time env w, start_time env w, false⟩

/-- The stats after the observation a run dispatch makes. -/
def stats_after_run (env : Env) (t : TaskRuntime) (w : World) : TaskStats :=
  t.stats.observe (max 0 (start_time env w - t.next_release))
    (finish_time env w - start_time env w)
    (decide (finish_time env w > t.next_release + t.spec.period))

/-- The reading `now` of a wake cycle that sleeps until `e` from world `w`. -/
def cycle_now (env : Env) (e : Int) (w : World) : Int := ((w.sleep_until e).now env).1

/-- The world in which the dispatch loop of that wake cycle begins. -/
def cycle_world (env : Env) (e : Int) (w : World) : World := ((w.sleep_until e).now env).2

/-! ## std::sort as implemented by libstdc++

The sort the toolchain supplies is not part of the repository. The
definitions below mirror `std::sort` of libstdc++ (GCC 12, `bits/stl_algo.h`
and `bits/stl_heap.h`) function by function, on a range of pointers held as
a list of task indices. Iterators are positions in the list. The loops the
library leaves unguarded carry fuel that a strict weak order never exhausts. -/

/-- The element `*(begin + i)` of the range. -/
def at_pos (a : List Nat) (i : Nat) : Nat := a.getD i 0

/-- Mirror of `std::iter_swap(begin + i, begin + j)`. -/
def iter_swap (a : List Nat) (i j : Nat) : List Nat :=
  (a.set i (at_pos a j)).set j (at_pos a i)

/-- Mirror of `std::__lg(n)`: the floor of the binary logarithm. -/
def lg_fuel : Nat → Nat → Nat
  | 0, _ => 0
  | f + 1, n => if n < 2 then 0 else lg_fuel f (n / 2) + 1

/-- Mirror of `std::__move_median_to_first(result, a, b, c, comp)`. -/
def move_median_to_first (cmp : Nat → Nat → Bool) (a : List Nat) (result x y z : Nat) :
    List Nat :=
  if cmp (at_pos a x) (at_pos a y) then
    if cmp (at_pos a y) (at_pos a z) then iter_swap a result y
    else if cmp (at_pos a x) (at_pos a z) then iter_swap a result z
    else iter_swap a result x
  else if cmp (at_pos a x) (at_pos a z) then iter_swap a result x
  else if cmp (at_pos a y) (at_pos a z) then iter_swap a result z
  else iter_swap a result y

/-- Mirror of `std::__unguarded_linear_insert(last, comp)`, with `val` already
taken out of `*last`; the fuel bounds the walk towards the front. -/
def unguarded_linear_insert_loop (cmp : Nat → Nat → Bool) (val : Nat) :
    Nat → List Nat → Nat → List Nat
  | 0, a, last => a.set last val
  | f + 1, a, last =>
    if last = 0 then a.set last val
    else if cmp val (at_pos a (last - 1)) then
      unguarded_linear_insert_loop cmp val f (a.set last (at_pos a (last - 1))) (last - 1)
    else a.set last val

/-- Mirror of `std::__unguarded_linear_insert(last, comp)`. -/
def unguarded_linear_insert (cmp : Nat → Nat → Bool) (a : List Nat) (last : Nat) : List Nat :=
  unguarded_linear_insert_loop cmp (at_pos a last) (last + 1) a last

/-- Mirror of the body of the `for` loop of `std::__insertion_sort` at `i`. -/
def insertion_step (cmp : Nat → Nat → Bool) (first : Nat) (a : List Nat) (i : Nat) : List Nat :=
  if cmp (at_pos a i) (at_pos a first) then
    a.take first ++ [at_pos a i] ++ (a.drop first).take (i - first) ++ a.drop (i + 1)
  else unguarded_linear_insert cmp a i

/-- Mirror of `std::__insertion_sort(first, last, comp)`. -/
def insertion_sort (cmp : Nat → Nat → Bool) (a : List Nat) (first last : Nat) : List Nat :=
  if first = last then a
  else (List.range' (first + 1) (last - (first + 1))).foldl (insertion_step cmp first) a

/-- Mirror of `std::__unguarded_insertion_sort(first, last, comp)`. -/
def unguarded_insertion_sort (cmp : Nat → Nat → Bool) (a : List Nat) (first last : Nat) :
    List Nat :=
  (List.range' first (last - first)).foldl (unguarded_linear_insert cmp) a

/-- Mirror of `std::__final_insertion_sort(first, last, comp)`, threshold 16. -/
def final_insertion_sort (cmp : Nat → Nat → Bool) (a : List Nat) (first last : Nat) : List Nat :=
  if last - first > 16 then
    unguarded_insertion_sort cmp (insertion_sort cmp a first (first + 16)) (first + 16) last
  else insertion_sort cmp a first last

/-- Mirror of `while (comp(first, pivot)) ++first;`. -/
def scan_up (cmp : Nat → Nat → Bool) (a : List Nat) (pivot : Nat) : Nat → Nat → Nat
  | 0, first => first
  | f + 1, first =>
    if cmp (at_pos a first) (at_pos a pivot) then scan_up cmp a pivot f (first + 1) else first

/-- Mirror of `while (comp(pivot, last)) --last;`. -/
def scan_down (cmp : Nat → Nat → Bool) (a : List Nat) (pivot : Nat) : Nat → Nat → Nat
  | 0, last => last
  | f + 1, last =>
    if cmp (at_pos a pivot) (at_pos a last) then scan_down cmp a pivot f (last - 1) else last

/-- Mirror of `std::__unguarded_partition(first, last, pivot, comp)`; returns
the range and the cut. -/
def unguarded_partition (cmp : Nat → Nat → Bool) (pivot : Nat) :
    Nat → List Nat → Nat → Nat → List Nat × Nat
  | 0, a, first, _ => (a, first)
  | f + 1, a, first, last =>
    let first1 := scan_up cmp a pivot a.length first
    let last1 := scan_down cmp a pivot a.length (last - 1)
    if ¬ first1 < last1 then (a, first1)
    else unguarded_partition cmp pivot f (iter_swap a first1 last1) (first1 + 1) last1

/-- Mirror of `std::__unguarded_partition_pivot(first, last, comp)`. -/
def unguarded_partition_pivot (cmp : Nat → Nat → Bool) (a : List Nat) (first last : Nat) :
    List Nat × Nat :=
  let mid := first + (last - first) / 2
  unguarded_partition cmp first a.length
    (move_median_to_first cmp a first (first + 1) mid (last - 1)) (first + 1) last

/-- Mirror of `std::__push_heap(first, holeIndex, topIndex, value, comp)`. -/
def push_heap (cmp : Nat → Nat → Bool) (first topIndex value : Nat) :
    Nat → List Nat → Nat → List Nat
  | 0, a, holeIndex => a.set (first + holeIndex) value
  | f + 1, a, holeIndex =>
    if holeIndex > topIndex ∧ cmp (at_pos a (first + (holeIndex - 1) / 2)) value = true then
      push_heap cmp first topIndex value f
        (a.set (first + holeIndex) (at_pos a (first + (holeIndex - 1) / 2)))
        ((holeIndex - 1) / 2)
    else a.set (first + holeIndex) value

/-- Mirror of the `while` loop of `std::__adjust_heap`; returns the range, the
hole and the second child. -/
def adjust_heap_down (cmp : Nat → Nat → Bool) (first len : Nat) :
    Nat → List Nat → Nat → Nat → List Nat × Nat × Nat
  | 0, a, holeIndex, secondChild => (a, holeIndex, secondChild)
  | f + 1, a, holeIndex, secondChild =>
    if secondChild < (len - 1) / 2 then
      let c := 2 * (secondChild + 1)
      let c1 := if cmp (at_pos a (first + c)) (at_pos a (first + (c - 1))) then c - 1 else c
      adjust_heap_down cmp first len f (a.set (first + holeIndex) (at_pos a (first + c1))) c1 c1
    else (a, holeIndex, secondChild)

/-- Mirror of `std::__adjust_heap(first, holeIndex, len, value, comp)`. -/
def adjust_heap (cmp : Nat → Nat → Bool) (a : List Nat) (first holeIndex len value : Nat) :
    List Nat :=
  let r := adjust_heap_down cmp first len len a holeIndex holeIndex
  let a1 := r.1
  let hole1 := r.2.1
  let child1 := r.2.2
  if len % 2 = 0 ∧ child1 = (len - 2) / 2 then
    let c := 2 * (child1 + 1)
    push_heap cmp first holeIndex value len
      (a1.set (first + hole1) (at_pos a1 (first + (c - 1)))) (c - 1)
  else push_heap cmp first holeIndex value len a1 hole1

/-- Mirror of `std::__pop_heap(first, last, result, comp)`. -/
def pop_heap (cmp : Nat → Nat → Bool) (a : List Nat) (first last result : Nat) : List Nat :=
  adjust_heap cmp (a.set result (at_pos a first)) first 0 (last - first) (at_pos a result)

/-- Mirror of the loop of `std::__make_heap`, from `parent` down to 0. -/
def make_heap_loop (cmp : Nat → Nat → Bool) (first len : Nat) : Nat → List Nat → List Nat
  | 0, a => adjust_heap cmp a first 0 len (at_pos a first)
  | parent + 1, a =>
    make_heap_loop cmp first len parent
      (adjust_heap cmp a first (parent + 1) len (at_pos a (first + (parent + 1))))

/-- Mirror of `std::__make_heap(first, last, comp)`. -/
def make_heap (cmp : Nat → Nat → Bool) (a : List Nat) (first last : Nat) : List Nat :=
  if last - first < 2 then a
  else make_heap_loop cmp first (last - first) ((last - first - 2) / 2) a

/-- Mirror of `std::__sort_heap(first, last, comp)`. -/
def sort_heap (cmp : Nat → Nat → Bool) (first : Nat) : Nat → List Nat → Nat → List Nat
  | 0, a, _ => a
  | f + 1, a, last =>
    if last - first > 1 then sort_heap cmp first f (pop_heap cmp a first (last - 1) (last - 1)) (last - 1)
    else a

/-- Mirror of `std::__heap_select(first, middle, last, comp)`. -/
def heap_select (cmp : Nat → Nat → Bool) (a : List Nat) (first middle last : Nat) : List Nat :=
  (List.range' middle (last - middle)).foldl
    (fun b i => if cmp (at_pos b i) (at_pos b first) then pop_heap cmp b first middle i else b)
    (make_heap cmp a first middle)

/-- Mirror of `std::__partial_sort(first, middle, last, comp)`. -/
def partial_sort (cmp : Nat → Nat → Bool) (a : List Nat) (first middle last : Nat) : List Nat :=
  sort_heap cmp first a.length (heap_select cmp a first middle last) middle

/-- Mirror of `std::__introsort_loop(first, last, depth_limit, comp)`,
threshold 16. -/
def introsort_loop (cmp : Nat → Nat → Bool) :
    Nat → List Nat → Nat → Nat → Nat → List Nat
  | 0, a, _, _, _ => a
  | f + 1, a, first, last, depth_limit =>
    if last - first > 16 then
      if depth_limit = 0 then partial_sort cmp a first last last
      else
        let r := unguarded_partition_pivot cmp a first last
        introsort_loop cmp f
          (introsort_loop cmp f r.1 r.2 last (depth_limit - 1)) first r.2 (depth_limit - 1)
    else a

/-- Mirror of `std::sort(first, last, comp)` of libstdc++ on the whole range. -/
def std_sort (cmp : Nat → Nat → Bool) (a : List Nat) : List Nat :=
  if a.length = 0 then a
  else
    final_insertion_sort cmp
      (introsort_loop cmp (a.length + 1) a 0 a.length (lg_fuel a.length a.length * 2))
      0 a.length

/-- A conforming `std::sort`: insertion sort, which keeps equivalent elements
in their input order. -/
def stable_sort (cmp : Nat → Nat → Bool) (l : List Nat) : List Nat :=
  l.insertionSort (fun a b => cmp b a = false)

/-- An environment in which bookkeeping and work take no time. -/
def Env.ideal : Env := ⟨fun _ => 0, stable_sort⟩

/-- The ideal clock with the `std::sort` of libstdc++. -/
def Env.libstdcxx : Env := ⟨fun _ => 0, std_sort⟩

/-- A sort keeps ties when two elements, the second of which the comparator
does not order before the first, leave in the order in which they came. -/
def KeepsTies (sort : (Nat → Nat → Bool) → List Nat → List Nat) : Prop :=
  ∀ cmp l a b, cmp b a = false → [a, b].Sublist l → [a, b].Sublist (sort cmp l)

/-- Two Hard tasks of period 10 with priorities 1 and 3, the lower registered
first, not yet started. -/
def sched_reg : Scheduler :=
  (Scheduler.init.add_task ⟨"low", 10, 1, Criticality.Hard⟩).add_task
    ⟨"high", 10, 3, Criticality.Hard⟩

/-- The scheduler `sched_reg` anchored at 0. -/
def sched_prio : Scheduler := sched_reg.start 0

/-- The scheduler `sched_prio` after its first wake cycle on the ideal clock. -/
def sched_prio_1 : Scheduler :=
  ⟨0, [⟨⟨"low", 10, 1, Criticality.Hard⟩, 20, ⟨1, 0, 0, 0, 0, 0, 0, 0⟩⟩,
       ⟨⟨"high", 10, 3, Criticality.Hard⟩, 20, ⟨1, 0, 0, 0, 0, 0, 0, 0⟩⟩], true⟩

/-- The world after that first wake cycle. -/
def world_prio_1 : World := ⟨10, 5, [⟨1, 10, 10, true⟩, ⟨0, 10, 10, true⟩]⟩

/-- Two Hard tasks of period 10 with the same priority 2, anchored at 0. -/
def sched_tie : Scheduler :=
  ((Scheduler.init.add_task ⟨"first", 10, 2, Criticality.Hard⟩).add_task
    ⟨"second", 10, 2, Criticality.Hard⟩).start 0

/-- Seventeen Hard tasks of period 10, all of priority 2, registered in the
order of their names and not yet started. -/
def sched_ties17_reg : Scheduler :=
  ["t00", "t01", "t02", "t03", "t04", "t05", "t06", "t07", "t08", "t09", "t10", "t11",
    "t12", "t13", "t14", "t15", "t16"].foldl
    (fun s n => s.add_task ⟨n, 10, 2, Criticality.Hard⟩) Scheduler.init

/-- The scheduler `sched_ties17_reg` anchored at 0: all seventeen tasks are due at 10. -/
def sched_ties17 : Scheduler := sched_ties17_reg.start 0

/-- The tasks of `sched_prio` after task 0 alone was dispatched at time 10. -/
def tasks_low_done : List TaskRuntime :=
  [⟨⟨"low", 10, 1, Criticality.Hard⟩, 20, ⟨1, 0, 0, 0, 0, 0, 0, 0⟩⟩,
   ⟨⟨"high", 10, 3, Criticality.Hard⟩, 10, TaskStats.zero⟩]

/-- The world after that dispatch. -/
def world_low_done : World := ⟨10, 2, [⟨0, 10, 10, true⟩]⟩

/-- Two observations used as a running example. -/
def obs_sample : List Obs := [⟨5, 7, false⟩, ⟨3, 9, true⟩]

/-- One wake cycle that ran to its end takes scheduler and world `a` to `b`. -/
def CycleStep (env : Env) (a b : Scheduler × World) : Prop :=
  ∃ fuel, wake_cycle env fuel a.1 a.2 = Outcome.done b

/-- The state `b` is reached from `a` by any number of finished wake cycles. -/
def Reaches (env : Env) (a b : Scheduler × World) : Prop :=
  Relation.ReflTransGen (CycleStep env) a b

/-- An environment in which every clock reading comes `d` ns after the previous event. -/
def Env.steady (d : Nat) : Env := ⟨fun _ => d, stable_sort⟩

/-! ## TaskStats::observe -/

theorem observe_all_append (s : TaskStats) (l : List Obs) (o : Obs) :
    s.observe_all (l ++ [o]) = (s.observe_all l).observe o.jitter o.exec o.overrun := by
  simp [TaskStats.observe_all, List.foldl_append]

theorem observe_all_releases (l : List Obs) :
    (TaskStats.zero.observe_all l).releases = l.length % 2 ^ 64 := by
  induction l using List.reverseRecOn with
  | nil => rfl
  | append_singleton l o ih =>
    rw [observe_all_append]
    simp only [TaskStats.observe, ih, List.length_append, List.length_singleton]
    omega

theorem isMinOf_seed (x : Int) : IsMinOf x [x] := by
  simp [IsMinOf]

theorem isMaxOf_seed (x : Int) : IsMaxOf x [x] := by
  simp [IsMaxOf]

theorem isMinOf_step {m : Int} {l : List Int} (h : IsMinOf m l) (x : Int) :
    IsMinOf (min m x) (l ++ [x]) := by
  obtain ⟨hm, hle⟩ := h
  refine ⟨?_, ?_⟩
  · rcases le_total m x with hc | hc
    · rw [min_eq_left hc]; exact List.mem_append_left _ hm
    · rw [min_eq_right hc]; simp
  · intro y hy
    rcases List.mem_append.mp hy with hy | hy
    · exact le_trans (min_le_left _ _) (hle y hy)
    · have : y = x := by simpa using hy
      rw [this]; exact min_le_right _ _

theorem isMaxOf_step {m : Int} {l : List Int} (h : IsMaxOf m l) (x : Int) :
    IsMaxOf (max m x) (l ++ [x]) := by
  obtain ⟨hm, hle⟩ := h
  refine ⟨?_, ?_⟩
  · rcases le_total m x with hc | hc
    · rw [max_eq_right hc]; simp
    · rw [max_eq_left hc]; exact List.mem_append_left _ hm
  · intro y hy
    rcases List.mem_append.mp hy with hy | hy
    · exact le_trans (hle y hy) (le_max_left _ _)
    · have : y = x := by simpa using hy
      rw [this]; exact le_max_right _ _

/-- Claim C10. After a non-empty sequence of `observe` calls on a
zero-initialised `TaskStats`, `jitter_min_ns` and `jitter_max_ns` are the
minimum and maximum of the jitter values passed, and `exec_min_ns` and
`exec_max_ns` those of the exec values passed; each is one of the values
passed, so the initial 0 is not a sample. The sequence has at most `2 ^ 64`
calls, the range of the 64-bit counter `releases` that detects the first call. -/
theorem observe_all_extrema (l : List Obs) (hne : l ≠ []) (hlen : l.length ≤ 2 ^ 64) :
    IsMinOf (TaskStats.zero.observe_all l).jitter_min_ns (l.map Obs.jitter) ∧
    IsMaxOf (TaskStats.zero.observe_all l).jitter_max_ns (l.map Obs.jitter) ∧
    IsMinOf (TaskStats.zero.observe_all l).exec_min_ns (l.map Obs.exec) ∧
    IsMaxOf (TaskStats.zero.observe_all l).exec_max_ns (l.map Obs.exec) := by
  induction l using List.reverseRecOn with
  | nil => exact absurd rfl hne
  | append_singleton l o ih =>
    have hl : l.length < 2 ^ 64 := by
      simp only [List.length_append, List.length_singleton] at hlen
      omega
    have hrel := observe_all_releases l
    rw [Nat.mod_eq_of_lt hl] at hrel
    rw [observe_all_append]
    simp only [TaskStats.observe, hrel, List.map_append, List.map_cons, List.map_nil]
    by_cases hnil : l = []
    · subst hnil
      simp [isMinOf_seed, isMaxOf_seed]
    · have hpos : 0 < l.length := List.length_pos.mpr hnil
      have hne1 : ¬ (l.length + 1) % 2 ^ 64 = 1 := by omega
      obtain ⟨h1, h2, h3, h4⟩ := ih hnil (le_of_lt hl)
      simp only [hne1, if_false]
      exact ⟨isMinOf_step h1 _, isMaxOf_step h2 _, isMinOf_step h3 _, isMaxOf_step h4 _⟩

/-- Witness for `observe_all_extrema`: two observations. -/
theorem observe_all_extrema_witness :
    IsMinOf (TaskStats.zero.observe_all [⟨5, 7, false⟩, ⟨3, 9, true⟩]).jitter_min_ns
      ([⟨5, 7, false⟩, ⟨3, 9, true⟩].map Obs.jitter) ∧
    IsMaxOf (TaskStats.zero.observe_all [⟨5, 7, false⟩, ⟨3, 9, true⟩]).jitter_max_ns
      ([⟨5, 7, false⟩, ⟨3, 9, true⟩].map Obs.jitter) ∧
    IsMinOf (TaskStats.zero.observe_all [⟨5, 7, false⟩, ⟨3, 9, true⟩]).exec_min_ns
      ([⟨5, 7, false⟩, ⟨3, 9, true⟩].map Obs.exec) ∧
    IsMaxOf (TaskStats.zero.observe_all [⟨5, 7, false⟩, ⟨3, 9, true⟩]).exec_max_ns
      ([⟨5, 7, false⟩, ⟨3, 9, true⟩].map Obs.exec) :=
  observe_all_extrema [⟨5, 7, false⟩, ⟨3, 9, true⟩] (by simp) (by simp)

/-! ## Scheduler::add_task -/

/-- Claim C8, as stated, fails: a spec whose period is 0 is not rejected; the
task collection grows by the new entry. -/
theorem add_task_accepts_zero_period :
    (⟨"bad", 0, 1, Criticality.Hard⟩ : TaskSpec).period ≤ 0 ∧
    (Scheduler.init.add_task ⟨"bad", 0, 1, Criticality.Hard⟩).tasks_ ≠ Scheduler.init.tasks_ ∧
    (Scheduler.init.add_task ⟨"bad", 0, 1, Criticality.Hard⟩).tasks_ =
      [⟨⟨"bad", 0, 1, Criticality.Hard⟩, 0, TaskStats.zero⟩] := by
  refine ⟨le_refl _, ?_, ?_⟩ <;> simp [Scheduler.add_task, Scheduler.init]

/-- Claim C8, amended. `add_task` validates nothing and has no error result:
for every spec, whatever the sign of its period, the collection afterwards is
the old one followed by one new entry holding that spec, a next release at the
clock epoch and zeroed stats; the threshold and the started flag are kept. -/
theorem add_task_appends (s : Scheduler) (spec : TaskSpec) :
    (s.add_task spec).tasks_ = s.tasks_ ++ [⟨spec, 0, TaskStats.zero⟩] ∧
    (s.add_task spec).tasks_.length = s.tasks_.length + 1 ∧
    (s.add_task spec).tasks_.take s.tasks_.length = s.tasks_ ∧
    (s.add_task spec).lateness_drop_threshold = s.lateness_drop_threshold ∧
    (s.add_task spec).started_ = s.started_ := by
  simp [Scheduler.add_task]

/-! ## Scheduler::start -/

theorem mem_collect_ready {ts : List TaskRuntime} {now : Int} {i : Nat} :
    i ∈ collect_ready ts now ↔ ∃ t, ts[i]? = some t ∧ t.next_release ≤ now := by
  unfold collect_ready
  rw [List.mem_filter, List.mem_range]
  constructor
  · rintro ⟨hlt, h⟩
    rw [List.getElem?_eq_getElem hlt] at h
    exact ⟨ts[i], List.getElem?_eq_getElem hlt, by simpa using h⟩
  · rintro ⟨t, ht, hle⟩
    have hlt : i < ts.length := (List.getElem?_eq_some.mp ht).1
    refine ⟨hlt, ?_⟩
    rw [ht]
    simpa using hle

/-- Claim C9. `start t0` gives every registered task `next_release = t0 + period`
(so a task with `period > 0` is not due at `t0`, and when all periods are
positive nothing is ready at `t0`), keeps every spec and every stats record,
and keeps the number and the order of the tasks. -/
theorem start_anchors (s : Scheduler) (t0 : Int) :
    (s.start t0).tasks_.length = s.tasks_.length ∧
    (s.start t0).tasks_.map TaskRuntime.spec = s.tasks_.map TaskRuntime.spec ∧
    (s.start t0).tasks_.map TaskRuntime.stats = s.tasks_.map TaskRuntime.stats ∧
    (s.start t0).tasks_.map TaskRuntime.next_release =
      s.tasks_.map (fun t => t0 + t.spec.period) ∧
    (∀ t ∈ (s.start t0).tasks_,
      t.next_release = t0 + t.spec.period ∧ (0 < t.spec.period → ¬ t.next_release ≤ t0)) ∧
    ((∀ t ∈ s.tasks_, 0 < t.spec.period) → collect_ready (s.start t0).tasks_ t0 = []) := by
  have hmem : ∀ t ∈ (s.start t0).tasks_,
      t.next_release = t0 + t.spec.period ∧ (0 < t.spec.period → ¬ t.next_release ≤ t0) := by
    intro t ht
    simp only [Scheduler.start, List.mem_map] at ht
    obtain ⟨u, _, rfl⟩ := ht
    refine ⟨rfl, fun hp => ?_⟩
    simp only [not_le] at hp ⊢
    omega
  refine ⟨?_, ?_, ?_, ?_, hmem, ?_⟩
  · simp [Scheduler.start]
  · simp [Scheduler.start, Function.comp_def]
  · simp [Scheduler.start, Function.comp_def]
  · simp [Scheduler.start, Function.comp_def]
  · intro hpos
    rw [List.eq_nil_iff_forall_not_mem]
    intro i hi
    obtain ⟨t, ht, hle⟩ := mem_collect_ready.mp hi
    have htm : t ∈ (s.start t0).tasks_ := List.getElem?_mem ht
    have hp : 0 < t.spec.period := by
      simp only [Scheduler.start, List.mem_map] at htm
      obtain ⟨u, hu, rfl⟩ := htm
      exact hpos u hu
    exact (hmem t htm).2 hp hle

/-- Witness for `start_anchors`: two tasks with positive periods, anchored at 1000. -/
theorem start_anchors_witness :
    collect_ready
      ((Scheduler.mk 0 [⟨⟨"a", 10, 3, Criticality.Hard⟩, 0, TaskStats.zero⟩,
        ⟨⟨"b", 50, 2, Criticality.BestEffort⟩, 0, TaskStats.zero⟩] false).start 1000).tasks_
      1000 = [] :=
  (start_anchors (Scheduler.mk 0 [⟨⟨"a", 10, 3, Criticality.Hard⟩, 0, TaskStats.zero⟩,
        ⟨⟨"b", 50, 2, Criticality.BestEffort⟩, 0, TaskStats.zero⟩] false) 1000).2.2.2.2.2
    (by
      intro t ht
      simp only [List.mem_cons, List.mem_singleton, List.not_mem_nil, or_false] at ht
      rcases ht with rfl | rfl <;> decide)

/-! ## The catch-up loop -/

theorem catch_up_ne_fault (fuel : Nat) (nr p bound : Int) :
    catch_up fuel nr p bound ≠ Outcome.fault := by
  induction fuel generalizing nr with
  | zero => simp [catch_up]
  | succ f ih =>
    unfold catch_up
    split
    · exact ih _
    · simp

/-- When the loop finishes it has added `k ≥ 1` periods, the result exceeds the
bound, and every smaller positive number of periods does not. -/
theorem catch_up_done_spec (fuel : Nat) (nr p bound r : Int)
    (h : catch_up fuel nr p bound = Outcome.done r) :
    ∃ k : Nat, 1 ≤ k ∧ k ≤ fuel ∧ r = nr + k * p ∧ bound < r ∧
      ∀ j : Nat, 1 ≤ j → j < k → nr + j * p ≤ bound := by
  induction fuel generalizing nr with
  | zero => simp [catch_up] at h
  | succ f ih =>
    unfold catch_up at h
    split at h
    · rename_i hle
      obtain ⟨k, hk1, hkf, hr, hb, hmin⟩ := ih (nr + p) h
      refine ⟨k + 1, by omega, by omega, ?_, hb, ?_⟩
      · rw [hr]; push_cast; ring
      · intro j hj1 hjk
        rcases Nat.eq_or_lt_of_le hj1 with hj | hj
        · rw [← hj]; simpa using hle
        · have := hmin (j - 1) (by omega) (by omega)
          have hc : ((j - 1 : Nat) : Int) = (j : Int) - 1 := by omega
          rw [hc] at this
          have e : nr + (j : Int) * p = nr + p + ((j : Int) - 1) * p := by ring
          rw [e]; exact this
    · rename_i hgt
      simp only [Outcome.done.injEq] at h
      refine ⟨1, le_refl _, by omega, ?_, ?_, ?_⟩
      · rw [← h]; simp
      · rw [← h]; omega
      · intro j hj1 hjk; omega

/-- With a positive period the loop finishes as soon as the fuel exceeds the
distance to the bound. -/
theorem catch_up_terminates (fuel : Nat) (nr p bound : Int) (hp : 0 < p)
    (hfuel : (bound - nr).toNat < fuel) :
    ∃ r, catch_up fuel nr p bound = Outcome.done r := by
  induction fuel generalizing nr with
  | zero => omega
  | succ f ih =>
    unfold catch_up
    split
    · rename_i hle
      exact ih (nr + p) (by omega)
    · exact ⟨_, rfl⟩

/-- With a positive period, a finished loop leaves a result at most one period
past a bound that the starting value did not exceed. -/
theorem catch_up_le_bound_add (fuel : Nat) (nr p bound r : Int)
    (h : catch_up fuel nr p bound = Outcome.done r) (hready : nr ≤ bound) :
    r ≤ bound + p := by
  obtain ⟨k, hk1, _, hr, _, hmin⟩ := catch_up_done_spec fuel nr p bound r h
  rcases Nat.eq_or_lt_of_le hk1 with hk | hk
  · rw [hr, ← hk]; simp; exact hready
  · have := hmin (k - 1) (by omega) (by omega)
    have hc : ((k - 1 : Nat) : Int) = (k : Int) - 1 := by omega
    rw [hc] at this
    have e : r = nr + ((k : Int) - 1) * p + p := by rw [hr]; ring
    rw [e]; omega

/-! ## One dispatch -/

/-- Unfolding of `dispatch` on the drop path. -/
theorem dispatch_drop_eq (env : Env) (thr : Int) (fuel i : Nat) (t : TaskRuntime) (w : World)
    (hc : t.spec.crit = Criticality.BestEffort ∧ thr > 0 ∧
      (w.now env).1 - t.next_release > thr) :
    dispatch env thr fuel i t w =
      match catch_up fuel t.next_release t.spec.period (w.now env).1 with
      | .done nr =>
        .done ({ t with
                  next_release := nr
                  stats := t.stats.observe (max 0 ((w.now env).1 - t.next_release)) 0 false },
               (w.now env).2.record ⟨i, (w.now env).1, (w.now env).1, false⟩)
      | .spin nr =>
        .spin ({ t with next_release := nr },
               (w.now env).2.record ⟨i, (w.now env).1, (w.now env).1, false⟩)
      | .fault => .fault := by
  simp only [dispatch, hc, and_self, if_true]

/-- Unfolding of `dispatch` on the run path. -/
theorem dispatch_run_eq (env : Env) (thr : Int) (fuel i : Nat) (t : TaskRuntime) (w : World)
    (hc : ¬ (t.spec.crit = Criticality.BestEffort ∧ thr > 0 ∧
      (w.now env).1 - t.next_release > thr)) :
    dispatch env thr fuel i t w =
      match catch_up fuel t.next_release t.spec.period ((w.now env).2.now env).1 with
      | .done nr =>
        .done ({ t with
                  next_release := nr
                  stats := t.stats.observe (max 0 ((w.now env).1 - t.next_release))
                    (((w.now env).2.now env).1 - (w.now env).1)
                    (decide (((w.now env).2.now env).1 > t.next_release + t.spec.period)) },
               ((w.now env).2.now env).2.record
                 ⟨i, (w.now env).1, ((w.now env).2.now env).1, true⟩)
      | .spin nr =>
        .spin ({ t with
                  next_release := nr
                  stats := t.stats.observe (max 0 ((w.now env).1 - t.next_release))
                    (((w.now env).2.now env).1 - (w.now env).1)
                    (decide (((w.now env).2.now env).1 > t.next_release + t.spec.period)) },
               ((w.now env).2.now env).2.record
                 ⟨i, (w.now env).1, ((w.now env).2.now env).1, true⟩)
      | .fault => .fault := by
  simp only [dispatch, hc, if_false]

/-- On the run path the work is invoked once and its observation recorded,
whether or not the catch-up loop has finished. -/
theorem dispatch_run_state (env : Env) (thr : Int) (fuel i : Nat) (t : TaskRuntime) (w : World)
    (hc : ¬ (t.spec.crit = Criticality.BestEffort ∧ thr > 0 ∧
      (w.now env).1 - t.next_release > thr)) :
    ∃ nr, (dispatch env thr fuel i t w).state =
      some (⟨t.spec, nr, stats_after_run env t w⟩, world_after_run env i w) := by
  rw [dispatch_run_eq env thr fuel i t w hc]
  cases h : catch_up fuel t.next_release t.spec.period ((w.now env).2.now env).1 with
  | done nr => exact ⟨nr, rfl⟩
  | spin nr => exact ⟨nr, rfl⟩
  | fault => exact absurd h (catch_up_ne_fault _ _ _ _)

/-- On the run path with a positive period and enough fuel the dispatch
finishes, with the catch-up result as new release. -/
theorem dispatch_run_done (env : Env) (thr : Int) (fuel i : Nat) (t : TaskRuntime) (w : World)
    (hc : ¬ (t.spec.crit = Criticality.BestEffort ∧ thr > 0 ∧
      (w.now env).1 - t.next_release > thr))
    (hp : 0 < t.spec.period) (hfuel : (finish_time env w - t.next_release).toNat < fuel) :
    ∃ nr, catch_up fuel t.next_release t.spec.period (finish_time env w) = Outcome.done nr ∧
      dispatch env thr fuel i t w =
        Outcome.done (⟨t.spec, nr, stats_after_run env t w⟩, world_after_run env i w) := by
  obtain ⟨nr, hnr⟩ := catch_up_terminates fuel t.next_release t.spec.period
    (finish_time env w) hp hfuel
  refine ⟨nr, hnr, ?_⟩
  rw [dispatch_run_eq env thr fuel i t w hc]
  simp only [finish_time] at hnr
  rw [hnr]
  rfl

/-- On the drop path with a positive period and enough fuel the dispatch
finishes without invoking the work. -/
theorem dispatch_drop_done (env : Env) (thr : Int) (fuel i : Nat) (t : TaskRuntime) (w : World)
    (hc : t.spec.crit = Criticality.BestEffort ∧ thr > 0 ∧
      (w.now env).1 - t.next_release > thr)
    (hp : 0 < t.spec.period) (hfuel : (start_time env w - t.next_release).toNat < fuel) :
    ∃ nr, catch_up fuel t.next_release t.spec.period (start_time env w) = Outcome.done nr ∧
      dispatch env thr fuel i t w =
        Outcome.done
          (⟨t.spec, nr, t.stats.observe (max 0 (start_time env w - t.next_release)) 0 false⟩,
           world_after_drop env i w) := by
  obtain ⟨nr, hnr⟩ := catch_up_terminates fuel t.next_release t.spec.period
    (start_time env w) hp hfuel
  refine ⟨nr, hnr, ?_⟩
  rw [dispatch_drop_eq env thr fuel i t w hc]
  simp only [start_time] at hnr
  rw [hnr]
  rfl

/-- Fuel that lets the catch-up loop of the dispatch of `t` in world `w` finish. -/
theorem dispatch_done_exists (env : Env) (thr : Int) (fuel i : Nat) (t : TaskRuntime) (w : World)
    (hp : 0 < t.spec.period) (hfuel : (finish_time env w - t.next_release).toNat < fuel) :
    ∃ nr st w1, catch_up fuel t.next_release t.spec.period (decision_time env thr t w) =
        Outcome.done nr ∧
      dispatch env thr fuel i t w = Outcome.done (⟨t.spec, nr, st⟩, w1) := by
  have hsf : start_time env w ≤ finish_time env w := by
    simp only [start_time, finish_time, World.now]
    omega
  by_cases hc : t.spec.crit = Criticality.BestEffort ∧ thr > 0 ∧
      (w.now env).1 - t.next_release > thr
  · obtain ⟨nr, h1, h2⟩ := dispatch_drop_done env thr fuel i t w hc hp (by omega)
    have hd : is_dropped thr t (start_time env w) = true := by
      simp only [is_dropped, start_time, decide_eq_true_eq]; exact hc
    exact ⟨nr, _, _, by simpa [decision_time, hd] using h1, h2⟩
  · obtain ⟨nr, h1, h2⟩ := dispatch_run_done env thr fuel i t w hc hp hfuel
    have hd : is_dropped thr t (start_time env w) = false := by
      simp only [is_dropped, start_time, decide_eq_false_iff_not]; exact hc
    exact ⟨nr, _, _, by simpa [decision_time, hd] using h1, h2⟩

/-! ## Claims about one dispatch -/

/-- Claim C1. A task with `period > 0` that is dispatched, run or dropped,
leaves with `next_release = old + k * period` where `k` is the smallest
positive integer that puts it strictly after the decision time (the finish
reading for a run, the dispatch reading for a drop); if the task was ready
(`old <= decision time`) the new value is at most one period past that time.
The loop needs no more fuel than the distance from the old release to the
finish reading. -/
theorem dispatch_next_release (env : Env) (thr : Int) (i : Nat) (t : TaskRuntime) (w : World)
    (hp : 0 < t.spec.period) :
    ∀ fuel, (finish_time env w - t.next_release).toNat < fuel →
      ∃ t1 w1, dispatch env thr fuel i t w = Outcome.done (t1, w1) ∧
        ∃ k : Nat, 1 ≤ k ∧
          t1.next_release = t.next_release + k * t.spec.period ∧
          decision_time env thr t w < t1.next_release ∧
          (∀ j : Nat, 1 ≤ j →
            decision_time env thr t w < t.next_release + j * t.spec.period → k ≤ j) ∧
          (t.next_release ≤ decision_time env thr t w →
            t1.next_release ≤ decision_time env thr t w + t.spec.period) := by
  intro fuel hfuel
  obtain ⟨nr, st, w1, hcu, hd⟩ := dispatch_done_exists env thr fuel i t w hp hfuel
  refine ⟨_, _, hd, ?_⟩
  obtain ⟨k, hk1, _, hr, hb, hmin⟩ := catch_up_done_spec _ _ _ _ _ hcu
  refine ⟨k, hk1, hr, hb, ?_, ?_⟩
  · intro j hj1 hj
    by_contra hlt
    have := hmin j hj1 (by omega)
    omega
  · intro hready
    exact catch_up_le_bound_add _ _ _ _ _ hcu hready

/-- Witness for `dispatch_next_release`: a Hard task of period 10 released at
100 and dispatched at 125 on an ideal clock moves to 130. -/
theorem dispatch_next_release_witness :
    (0 : Int) < (TaskRuntime.mk ⟨"a", 10, 3, Criticality.Hard⟩ 100 TaskStats.zero).spec.period ∧
    (finish_time Env.ideal ⟨125, 0, []⟩ -
      (TaskRuntime.mk ⟨"a", 10, 3, Criticality.Hard⟩ 100 TaskStats.zero).next_release).toNat
      < 26 ∧
    ∃ t1 w1, dispatch Env.ideal 0 26 0 ⟨⟨"a", 10, 3, Criticality.Hard⟩, 100, TaskStats.zero⟩
        ⟨125, 0, []⟩ = Outcome.done (t1, w1) ∧
      ∃ k : Nat, 1 ≤ k ∧
        t1.next_release = (100 : Int) + k * 10 ∧
        decision_time Env.ideal 0 ⟨⟨"a", 10, 3, Criticality.Hard⟩, 100, TaskStats.zero⟩
          ⟨125, 0, []⟩ < t1.next_release ∧
        (∀ j : Nat, 1 ≤ j →
          decision_time Env.ideal 0 ⟨⟨"a", 10, 3, Criticality.Hard⟩, 100, TaskStats.zero⟩
            ⟨125, 0, []⟩ < (100 : Int) + j * 10 → k ≤ j) ∧
        ((100 : Int) ≤ decision_time Env.ideal 0
            ⟨⟨"a", 10, 3, Criticality.Hard⟩, 100, TaskStats.zero⟩ ⟨125, 0, []⟩ →
          t1.next_release ≤ decision_time Env.ideal 0
            ⟨⟨"a", 10, 3, Criticality.Hard⟩, 100, TaskStats.zero⟩ ⟨125, 0, []⟩ + 10) :=
  ⟨by decide, by decide,
    dispatch_next_release Env.ideal 0 0 ⟨⟨"a", 10, 3, Criticality.Hard⟩, 100, TaskStats.zero⟩
      ⟨125, 0, []⟩ (by decide) 26 (by decide)⟩

/-- Concrete run of the catch-up of the witness above: three periods are added. -/
theorem dispatch_example_value :
    (dispatch Env.ideal 0 26 0 ⟨⟨"a", 10, 3, Criticality.Hard⟩, 100, TaskStats.zero⟩
      ⟨125, 0, []⟩).state.map (fun r => r.1.next_release) = some 130 := by
  decide

/-- Claim C3. A dispatch of a Hard task, however late and whatever the
threshold, invokes the work exactly once (one new dispatch record, with
`ran = true`) and records the observation with the measured execution
`finish - start`; this holds even while the catch-up loop is still running,
and with a positive period and enough fuel the dispatch finishes. -/
theorem hard_task_always_runs (env : Env) (thr : Int) (fuel i : Nat) (t : TaskRuntime)
    (w : World) (hh : t.spec.crit = Criticality.Hard) :
    (∃ nr w1, (dispatch env thr fuel i t w).state =
        some (⟨t.spec, nr,
            t.stats.observe (max 0 (start_time env w - t.next_release))
              (finish_time env w - start_time env w)
              (decide (finish_time env w > t.next_release + t.spec.period))⟩, w1) ∧
      w1.trace = w.trace ++ [⟨i, start_time env w, finish_time env w, true⟩]) ∧
    (0 < t.spec.period → (finish_time env w - t.next_release).toNat < fuel →
      ∃ r, dispatch env thr fuel i t w = Outcome.done r) := by
  have hc : ¬ (t.spec.crit = Criticality.BestEffort ∧ thr > 0 ∧
      (w.now env).1 - t.next_release > thr) := by
    rw [hh]; simp
  constructor
  · obtain ⟨nr, h⟩ := dispatch_run_state env thr fuel i t w hc
    exact ⟨nr, _, h, rfl⟩
  · intro hp hfuel
    obtain ⟨nr, _, h⟩ := dispatch_run_done env thr fuel i t w hc hp hfuel
    exact ⟨_, h⟩

/-- Witness for `hard_task_always_runs`: a Hard task dispatched 25 ns late with
a threshold of 5 ns still runs. -/
theorem hard_task_always_runs_witness :
    (TaskRuntime.mk ⟨"a", 10, 3, Criticality.Hard⟩ 100 TaskStats.zero).spec.crit
      = Criticality.Hard ∧
    ∃ r, dispatch (Env.steady 1) 5 30 0 ⟨⟨"a", 10, 3, Criticality.Hard⟩, 100, TaskStats.zero⟩
      ⟨125, 0, []⟩ = Outcome.done r :=
  ⟨rfl, (hard_task_always_runs (Env.steady 1) 5 30 0
    ⟨⟨"a", 10, 3, Criticality.Hard⟩, 100, TaskStats.zero⟩ ⟨125, 0, []⟩ rfl).2
      (by decide) (by decide)⟩

/-- Claim C4. A BestEffort release dispatched more than a positive threshold
`thr` after its scheduled release is dropped: the only new dispatch record has
`ran = false` (the work is not invoked), whether or not the catch-up loop has
finished; with a positive period and enough fuel the dispatch finishes, the
stats are those of `observe (max 0 delay) 0 false` (so `releases` goes up by
one in 64-bit arithmetic, `overruns` and `exec_sum_ns` keep their values, and
the jitter recorded is the delay), and the new release is strictly after the
dispatch reading. -/
theorem best_effort_late_is_dropped (env : Env) (thr : Int) (fuel i : Nat) (t : TaskRuntime)
    (w : World) (hb : t.spec.crit = Criticality.BestEffort) (hthr : 0 < thr)
    (hlate : thr < start_time env w - t.next_release) :
    (∃ t1 w1, (dispatch env thr fuel i t w).state = some (t1, w1) ∧
      w1.trace = w.trace ++ [⟨i, start_time env w, start_time env w, false⟩]) ∧
    (0 < t.spec.period → (start_time env w - t.next_release).toNat < fuel →
      ∃ t1 w1, dispatch env thr fuel i t w = Outcome.done (t1, w1) ∧
        t1.spec = t.spec ∧
        t1.stats = t.stats.observe (max 0 (start_time env w - t.next_release)) 0 false ∧
        max 0 (start_time env w - t.next_release) = start_time env w - t.next_release ∧
        t1.stats.releases = (t.stats.releases + 1) % 2 ^ 64 ∧
        (t.stats.releases + 1 < 2 ^ 64 → t1.stats.releases = t.stats.releases + 1) ∧
        t1.stats.overruns = t.stats.overruns ∧
        t1.stats.exec_sum_ns = t.stats.exec_sum_ns % 2 ^ 64 ∧
        (t.stats.exec_sum_ns < 2 ^ 64 → t1.stats.exec_sum_ns = t.stats.exec_sum_ns) ∧
        start_time env w < t1.next_release) := by
  have hc : t.spec.crit = Criticality.BestEffort ∧ thr > 0 ∧
      (w.now env).1 - t.next_release > thr := ⟨hb, hthr, hlate⟩
  constructor
  · rw [dispatch_drop_eq env thr fuel i t w hc]
    cases h : catch_up fuel t.next_release t.spec.period (w.now env).1 with
    | done nr => exact ⟨_, _, rfl, rfl⟩
    | spin nr => exact ⟨_, _, rfl, rfl⟩
    | fault => exact absurd h (catch_up_ne_fault _ _ _ _)
  · intro hp hfuel
    obtain ⟨nr, hcu, h⟩ := dispatch_drop_done env thr fuel i t w hc hp hfuel
    obtain ⟨k, _, _, _, hgt, _⟩ := catch_up_done_spec _ _ _ _ _ hcu
    refine ⟨_, _, h, rfl, rfl, ?_, rfl, ?_, rfl, ?_, ?_, hgt⟩
    · apply max_eq_right; omega
    · intro hr
      simp only [TaskStats.observe]
      exact Nat.mod_eq_of_lt hr
    · simp [TaskStats.observe, to_u64]
    · intro hr
      simp only [TaskStats.observe, to_u64]
      simpa using Nat.mod_eq_of_lt hr

/-- Witness for `best_effort_late_is_dropped`: threshold 40, dispatch 55 ns
late; the release at 100 is dropped and the next one is at 200. -/
theorem best_effort_late_is_dropped_witness :
    (TaskRuntime.mk ⟨"b", 50, 2, Criticality.BestEffort⟩ 100 TaskStats.zero).spec.crit
      = Criticality.BestEffort ∧ (0 : Int) < 40 ∧
    (40 : Int) < start_time Env.ideal ⟨155, 0, []⟩ -
      (TaskRuntime.mk ⟨"b", 50, 2, Criticality.BestEffort⟩ 100 TaskStats.zero).next_release ∧
    ∃ t1 w1, dispatch Env.ideal 40 60 0
        ⟨⟨"b", 50, 2, Criticality.BestEffort⟩, 100, TaskStats.zero⟩ ⟨155, 0, []⟩
          = Outcome.done (t1, w1) ∧
      t1.spec = ⟨"b", 50, 2, Criticality.BestEffort⟩ ∧
      t1.stats = TaskStats.zero.observe (max 0 (start_time Env.ideal ⟨155, 0, []⟩ - 100)) 0 false ∧
      max 0 (start_time Env.ideal ⟨155, 0, []⟩ - 100) = start_time Env.ideal ⟨155, 0, []⟩ - 100 ∧
      t1.stats.releases = (TaskStats.zero.releases + 1) % 2 ^ 64 ∧
      (TaskStats.zero.releases + 1 < 2 ^ 64 → t1.stats.releases = TaskStats.zero.releases + 1) ∧
      t1.stats.overruns = TaskStats.zero.overruns ∧
      t1.stats.exec_sum_ns = TaskStats.zero.exec_sum_ns % 2 ^ 64 ∧
      (TaskStats.zero.exec_sum_ns < 2 ^ 64 →
        t1.stats.exec_sum_ns = TaskStats.zero.exec_sum_ns) ∧
      start_time Env.ideal ⟨155, 0, []⟩ < t1.next_release :=
  ⟨rfl, by decide, by decide,
    (best_effort_late_is_dropped Env.ideal 40 60 0
      ⟨⟨"b", 50, 2, Criticality.BestEffort⟩, 100, TaskStats.zero⟩ ⟨155, 0, []⟩
      rfl (by decide) (by decide)).2 (by decide) (by decide)⟩

/-- The dispatch of the witness above, evaluated. -/
theorem best_effort_drop_example :
    dispatch Env.ideal 40 60 0
        ⟨⟨"b", 50, 2, Criticality.BestEffort⟩, 100, TaskStats.zero⟩ ⟨155, 0, []⟩ =
      Outcome.done (⟨⟨"b", 50, 2, Criticality.BestEffort⟩, 200, ⟨1, 0, 55, 55, 55, 0, 0, 0⟩⟩,
        ⟨155, 1, [⟨0, 155, 155, false⟩]⟩) := by
  decide

/-- Claim C5. A BestEffort release is run, not dropped, when the threshold is
0 (whatever the delay) or when the threshold is positive and the dispatch delay
does not exceed it (delay equal to the threshold included): the work is invoked
once and the observation with the measured execution is recorded. -/
theorem best_effort_in_time_runs (env : Env) (thr : Int) (fuel i : Nat) (t : TaskRuntime)
    (w : World) (_hb : t.spec.crit = Criticality.BestEffort)
    (hthr : thr = 0 ∨ (0 < thr ∧ start_time env w - t.next_release ≤ thr)) :
    (∃ nr w1, (dispatch env thr fuel i t w).state =
        some (⟨t.spec, nr,
            t.stats.observe (max 0 (start_time env w - t.next_release))
              (finish_time env w - start_time env w)
              (decide (finish_time env w > t.next_release + t.spec.period))⟩, w1) ∧
      w1.trace = w.trace ++ [⟨i, start_time env w, finish_time env w, true⟩]) ∧
    (0 < t.spec.period → (finish_time env w - t.next_release).toNat < fuel →
      ∃ r, dispatch env thr fuel i t w = Outcome.done r) := by
  have hc : ¬ (t.spec.crit = Criticality.BestEffort ∧ thr > 0 ∧
      (w.now env).1 - t.next_release > thr) := by
    rintro ⟨_, h1, h2⟩
    rcases hthr with h0 | ⟨_, hle⟩
    · omega
    · simp only [start_time] at hle; omega
  constructor
  · obtain ⟨nr, h⟩ := dispatch_run_state env thr fuel i t w hc
    exact ⟨nr, _, h, rfl⟩
  · intro hp hfuel
    obtain ⟨nr, _, h⟩ := dispatch_run_done env thr fuel i t w hc hp hfuel
    exact ⟨_, h⟩

/-- Witness for `best_effort_in_time_runs`: delay exactly equal to the threshold. -/
theorem best_effort_in_time_runs_witness :
    (TaskRuntime.mk ⟨"b", 50, 2, Criticality.BestEffort⟩ 100 TaskStats.zero).spec.crit
      = Criticality.BestEffort ∧
    ((40 : Int) = 0 ∨ ((0 : Int) < 40 ∧ start_time Env.ideal ⟨140, 0, []⟩ -
      (TaskRuntime.mk ⟨"b", 50, 2, Criticality.BestEffort⟩ 100 TaskStats.zero).next_release
        ≤ 40)) ∧
    ∃ r, dispatch Env.ideal 40 60 0
      ⟨⟨"b", 50, 2, Criticality.BestEffort⟩, 100, TaskStats.zero⟩ ⟨140, 0, []⟩
        = Outcome.done r :=
  ⟨rfl, Or.inr (by decide),
    (best_effort_in_time_runs Env.ideal 40 60 0
      ⟨⟨"b", 50, 2, Criticality.BestEffort⟩, 100, TaskStats.zero⟩ ⟨140, 0, []⟩
      rfl (Or.inr (by decide))).2 (by decide) (by decide)⟩

/-! ## Fuel monotonicity and the shape of a finished dispatch -/

theorem catch_up_mono (fuel fuel1 : Nat) (nr p bound r : Int)
    (h : catch_up fuel nr p bound = Outcome.done r) (hle : fuel ≤ fuel1) :
    catch_up fuel1 nr p bound = Outcome.done r := by
  induction fuel generalizing nr fuel1 with
  | zero => simp [catch_up] at h
  | succ f ih =>
    obtain ⟨g, rfl⟩ : ∃ g, fuel1 = g + 1 := ⟨fuel1 - 1, by omega⟩
    unfold catch_up at h ⊢
    split
    · rename_i hc
      rw [if_pos hc] at h
      exact ih g (nr + p) h (by omega)
    · rename_i hc
      rw [if_neg hc] at h
      exact h

/-- Everything a finished dispatch did, by cases on the admission check. -/
theorem dispatch_done_cases (env : Env) (thr : Int) (fuel i : Nat) (t t1 : TaskRuntime)
    (w w1 : World) (h : dispatch env thr fuel i t w = Outcome.done (t1, w1)) :
    ∃ nr, catch_up fuel t.next_release t.spec.period (decision_time env thr t w)
        = Outcome.done nr ∧
      t1.spec = t.spec ∧ t1.next_release = nr ∧
      ((is_dropped thr t (start_time env w) = true ∧
          t1.stats = t.stats.observe (max 0 (start_time env w - t.next_release)) 0 false ∧
          w1 = world_after_drop env i w) ∨
       (is_dropped thr t (start_time env w) = false ∧
          t1.stats = stats_after_run env t w ∧
          w1 = world_after_run env i w)) := by
  by_cases hc : t.spec.crit = Criticality.BestEffort ∧ thr > 0 ∧
      (w.now env).1 - t.next_release > thr
  · have hd : is_dropped thr t (start_time env w) = true := by
      simp only [is_dropped, start_time, decide_eq_true_eq]; exact hc
    rw [dispatch_drop_eq env thr fuel i t w hc] at h
    cases hcu : catch_up fuel t.next_release t.spec.period (w.now env).1 with
    | done nr =>
      rw [hcu] at h
      simp only [Outcome.done.injEq, Prod.mk.injEq] at h
      obtain ⟨h1, h2⟩ := h
      have hdt : decision_time env thr t w = start_time env w := by
        simp only [decision_time, hd, if_true]
      refine ⟨nr, by rw [hdt]; exact hcu, ?_, ?_, Or.inl ⟨hd, ?_, ?_⟩⟩
      · rw [← h1]
      · rw [← h1]
      · rw [← h1]; rfl
      · rw [← h2]; rfl
    | spin nr => rw [hcu] at h; simp at h
    | fault => rw [hcu] at h; simp at h
  · have hd : is_dropped thr t (start_time env w) = false := by
      simp only [is_dropped, start_time, decide_eq_false_iff_not]; exact hc
    rw [dispatch_run_eq env thr fuel i t w hc] at h
    cases hcu : catch_up fuel t.next_release t.spec.period ((w.now env).2.now env).1 with
    | done nr =>
      rw [hcu] at h
      simp only [Outcome.done.injEq, Prod.mk.injEq] at h
      obtain ⟨h1, h2⟩ := h
      have hdt : decision_time env thr t w = finish_time env w := by
        simp only [decision_time, hd]; rfl
      refine ⟨nr, by rw [hdt]; exact hcu, ?_, ?_, Or.inr ⟨hd, ?_, ?_⟩⟩
      · rw [← h1]
      · rw [← h1]
      · rw [← h1]; rfl
      · rw [← h2]; rfl
    | spin nr => rw [hcu] at h; simp at h
    | fault => rw [hcu] at h; simp at h

theorem start_le_finish (env : Env) (w : World) : start_time env w ≤ finish_time env w := by
  simp only [start_time, finish_time, World.now]
  omega

theorem clk_le_start (env : Env) (w : World) : w.clk ≤ start_time env w := by
  simp only [start_time, World.now]
  omega

/-- A finished dispatch appends one record for its task; the record lies
between the clock before and the clock after, the spec is kept, and the
release moves forward by a positive whole number of periods past the record. -/
theorem dispatch_done_inv (env : Env) (thr : Int) (fuel i : Nat) (t t1 : TaskRuntime)
    (w w1 : World) (h : dispatch env thr fuel i t w = Outcome.done (t1, w1)) :
    t1.spec = t.spec ∧
    (∃ k : Nat, 1 ≤ k ∧ t1.next_release = t.next_release + k * t.spec.period) ∧
    ∃ r, w1.trace = w.trace ++ [r] ∧ r.task = i ∧ w.clk ≤ r.start ∧ r.start ≤ r.finish ∧
      r.finish = w1.clk ∧ r.finish < t1.next_release := by
  obtain ⟨nr, hcu, hs, hn, hcase⟩ := dispatch_done_cases env thr fuel i t t1 w w1 h
  obtain ⟨k, hk1, _, hr, hb, _⟩ := catch_up_done_spec _ _ _ _ _ hcu
  refine ⟨hs, ⟨k, hk1, by rw [hn, hr]⟩, ?_⟩
  rcases hcase with ⟨hd, _, hw⟩ | ⟨hd, _, hw⟩
  · refine ⟨⟨i, start_time env w, start_time env w, false⟩, ?_, rfl, clk_le_start env w,
      le_refl _, ?_, ?_⟩
    · rw [hw]; rfl
    · rw [hw]; rfl
    · rw [hn]; simpa [decision_time, hd] using hb
  · refine ⟨⟨i, start_time env w, finish_time env w, true⟩, ?_, rfl, clk_le_start env w,
      start_le_finish env w, ?_, ?_⟩
    · rw [hw]; rfl
    · rw [hw]; rfl
    · rw [hn]; simpa [decision_time, hd] using hb

theorem dispatch_mono (env : Env) (thr : Int) (fuel fuel1 i : Nat) (t : TaskRuntime)
    (w : World) (r : TaskRuntime × World)
    (h : dispatch env thr fuel i t w = Outcome.done r) (hle : fuel ≤ fuel1) :
    dispatch env thr fuel1 i t w = Outcome.done r := by
  by_cases hc : t.spec.crit = Criticality.BestEffort ∧ thr > 0 ∧
      (w.now env).1 - t.next_release > thr
  · rw [dispatch_drop_eq env thr _ i t w hc] at h ⊢
    cases hcu : catch_up fuel t.next_release t.spec.period (w.now env).1 with
    | done nr =>
      rw [hcu] at h
      rw [catch_up_mono _ _ _ _ _ _ hcu hle]
      exact h
    | spin nr => rw [hcu] at h; simp at h
    | fault => rw [hcu] at h; simp at h
  · rw [dispatch_run_eq env thr _ i t w hc] at h ⊢
    cases hcu : catch_up fuel t.next_release t.spec.period ((w.now env).2.now env).1 with
    | done nr =>
      rw [hcu] at h
      rw [catch_up_mono _ _ _ _ _ _ hcu hle]
      exact h
    | spin nr => rw [hcu] at h; simp at h
    | fault => rw [hcu] at h; simp at h

/-! ## std::sort and the comparator -/

theorem higher_first_strictWeak (ts : List TaskRuntime) : StrictWeak (higher_first ts) := by
  refine ⟨?_, ?_, ?_⟩
  · intro a; simp [higher_first]
  · intro a b c h1 h2
    simp only [higher_first, decide_eq_true_eq] at *
    omega
  · intro a b c h1 h2 h3 h4
    simp only [higher_first, decide_eq_false_iff_not, decide_eq_true_eq] at *
    omega

theorem strictWeak_asymm {cmp : Nat → Nat → Bool} (h : StrictWeak cmp) (a b : Nat)
    (hab : cmp a b = true) : cmp b a = false := by
  cases hba : cmp b a with
  | false => rfl
  | true =>
    have := h.trans a b a hab hba
    rw [h.irrefl a] at this
    exact absurd this (by simp)

/-- Negative transitivity of a strict weak order. -/
theorem strictWeak_neg_trans {cmp : Nat → Nat → Bool} (h : StrictWeak cmp) (a b c : Nat)
    (hba : cmp b a = false) (hcb : cmp c b = false) : cmp c a = false := by
  cases hca : cmp c a with
  | false => rfl
  | true =>
    exfalso
    have hab : cmp a b = false := by
      cases hab : cmp a b with
      | false => rfl
      | true =>
        have := h.trans c a b hca hab
        rw [hcb] at this
        exact absurd this (by simp)
    have hbc : cmp b c = false := by
      cases hbc : cmp b c with
      | false => rfl
      | true =>
        have := h.trans b c a hbc hca
        rw [hba] at this
        exact absurd this (by simp)
    have := (h.incomp a b c hab hba hbc hcb).2
    rw [hca] at this
    exact absurd this (by simp)

theorem insertionSort_sorted_of_strictWeak {cmp : Nat → Nat → Bool} (h : StrictWeak cmp)
    (l : List Nat) :
    (l.insertionSort (fun a b => cmp b a = false)).Pairwise (fun a b => cmp b a = false) := by
  haveI : IsTotal Nat (fun a b => cmp b a = false) := ⟨fun a b => by
    cases hba : cmp b a with
    | false => exact Or.inl rfl
    | true => exact Or.inr (strictWeak_asymm h b a hba)⟩
  haveI : IsTrans Nat (fun a b => cmp b a = false) :=
    ⟨fun a b c hab hbc => strictWeak_neg_trans h a b c hab hbc⟩
  exact List.sorted_insertionSort (fun a b => cmp b a = false) l

/-- Insertion sort meets the contract of `std::sort`. -/
theorem stable_sort_contract : StdSortContract stable_sort :=
  ⟨fun _ l => List.perm_insertionSort _ l,
   fun _ l h => insertionSort_sorted_of_strictWeak h l⟩

/-- The order of dispatch is a rearrangement of the ready list and is
non-increasing in priority. -/
theorem dispatch_order_spec (env : Env) (hs : StdSortContract env.sort)
    (ts : List TaskRuntime) (now : Int) :
    (dispatch_order env ts now).Perm (collect_ready ts now) ∧
    (dispatch_order env ts now).Pairwise (fun a b => priority_of ts b ≤ priority_of ts a) := by
  refine ⟨hs.perm _ _, ?_⟩
  have := hs.sorted (higher_first ts) (collect_ready ts now) (higher_first_strictWeak ts)
  refine this.imp ?_
  intro a b hab
  simpa [higher_first] using hab

theorem collect_ready_nodup (ts : List TaskRuntime) (now : Int) :
    (collect_ready ts now).Nodup :=
  (List.nodup_range _).filter _

/-- The ready list is in registration order. -/
theorem collect_ready_sorted (ts : List TaskRuntime) (now : Int) :
    (collect_ready ts now).Pairwise (fun a b => a < b) :=
  (List.pairwise_lt_range _).filter _

/-! ## The dispatch loop -/

theorem dispatch_all_cons_done (env : Env) (thr : Int) (fuel i : Nat) (rest : List Nat)
    (ts : List TaskRuntime) (w : World) (r : List TaskRuntime × World)
    (h : dispatch_all env thr fuel (i :: rest) ts w = Outcome.done r) :
    ∃ t t1 w1, ts[i]? = some t ∧ dispatch env thr fuel i t w = Outcome.done (t1, w1) ∧
      dispatch_all env thr fuel rest (ts.set i t1) w1 = Outcome.done r := by
  unfold dispatch_all at h
  cases hi : ts[i]? with
  | none => rw [hi] at h; simp at h
  | some t =>
    rw [hi] at h
    simp only at h
    cases hd : dispatch env thr fuel i t w with
    | done p =>
      obtain ⟨t1, w1⟩ := p
      rw [hd] at h
      exact ⟨t, t1, w1, rfl, hd, h⟩
    | spin p => obtain ⟨t1, w1⟩ := p; rw [hd] at h; simp at h
    | fault => rw [hd] at h; simp at h

/-- What a finished dispatch loop did to the tasks: the length is kept, every
task keeps its spec and moves its release forward by a whole number of
periods, at least one if it was in the list, and tasks outside the list are
untouched. -/
theorem dispatch_all_tasks (env : Env) (thr : Int) (fuel : Nat) (l : List Nat)
    (ts ts1 : List TaskRuntime) (w w1 : World)
    (h : dispatch_all env thr fuel l ts w = Outcome.done (ts1, w1)) :
    ts1.length = ts.length ∧
    ∀ j t, ts[j]? = some t →
      ∃ t1, ts1[j]? = some t1 ∧ t1.spec = t.spec ∧
        (∃ k : Nat, t1.next_release = t.next_release + (k : Int) * t.spec.period ∧
          (j ∈ l → 1 ≤ k)) ∧
        (j ∉ l → t1 = t) := by
  induction l generalizing ts w with
  | nil =>
    simp only [dispatch_all, Outcome.done.injEq, Prod.mk.injEq] at h
    obtain ⟨rfl, rfl⟩ := h
    exact ⟨rfl, fun j t ht => ⟨t, ht, rfl, ⟨0, by simp, by simp⟩, fun _ => rfl⟩⟩
  | cons i rest ih =>
    obtain ⟨t, t1, wm, hi, hd, hrest⟩ := dispatch_all_cons_done env thr fuel i rest ts w _ h
    obtain ⟨hlen, hall⟩ := ih (ts.set i t1) wm hrest
    obtain ⟨hspec, ⟨k1, hk1, hnr⟩, _⟩ := dispatch_done_inv env thr fuel i t t1 w wm hd
    have hilt : i < ts.length := (List.getElem?_eq_some.mp hi).1
    refine ⟨by simpa using hlen, ?_⟩
    intro j u hu
    by_cases hji : i = j
    · subst hji
      have hu' : u = t := by rw [hi] at hu; exact (Option.some.inj hu).symm
      subst hu'
      have hset : (ts.set i t1)[i]? = some t1 := by simp [List.getElem?_set, hilt]
      obtain ⟨t2, h2, hs2, ⟨k2, hk2, _⟩, _⟩ := hall i t1 hset
      refine ⟨t2, h2, by rw [hs2, hspec], ⟨k1 + k2, ?_, fun _ => by omega⟩, ?_⟩
      · rw [hk2, hnr, hspec]; push_cast; ring
      · intro hni; exact absurd (List.mem_cons_self _ _) hni
    · have hset : (ts.set i t1)[j]? = some u := by
        rw [List.getElem?_set_ne hji]; exact hu
      obtain ⟨t2, h2, hs2, ⟨k2, hk2, hmem⟩, hout⟩ := hall j u hset
      refine ⟨t2, h2, hs2, ⟨k2, hk2, ?_⟩, ?_⟩
      · intro hj
        rcases List.mem_cons.mp hj with hj | hj
        · exact absurd hj.symm hji
        · exact hmem hj
      · intro hj
        exact hout (fun hm => hj (List.mem_cons_of_mem _ hm))

/-- What a finished dispatch loop did to the world: one record per list entry,
in list order, each inside the time window of the loop and each finished
before the next one starts. -/
theorem dispatch_all_trace (env : Env) (thr : Int) (fuel : Nat) (l : List Nat)
    (ts ts1 : List TaskRuntime) (w w1 : World)
    (h : dispatch_all env thr fuel l ts w = Outcome.done (ts1, w1)) :
    w.clk ≤ w1.clk ∧
    ∃ recs, w1.trace = w.trace ++ recs ∧ recs.map DispatchRec.task = l ∧
      (∀ r ∈ recs, w.clk ≤ r.start ∧ r.start ≤ r.finish ∧ r.finish ≤ w1.clk) ∧
      recs.Pairwise (fun a b => a.finish ≤ b.start) := by
  induction l generalizing ts w with
  | nil =>
    simp only [dispatch_all, Outcome.done.injEq, Prod.mk.injEq] at h
    obtain ⟨rfl, rfl⟩ := h
    exact ⟨le_refl _, [], by simp, rfl, by simp, List.Pairwise.nil⟩
  | cons i rest ih =>
    obtain ⟨t, t1, wm, hi, hd, hrest⟩ := dispatch_all_cons_done env thr fuel i rest ts w _ h
    obtain ⟨hclk, recs, htr, hmap, hwin, hpw⟩ := ih (ts.set i t1) wm hrest
    obtain ⟨_, _, r, hr, hrt, hrs, hrf, hrc, _⟩ := dispatch_done_inv env thr fuel i t t1 w wm hd
    refine ⟨by omega, r :: recs, ?_, ?_, ?_, ?_⟩
    · rw [htr, hr]; simp
    · simp [hrt, hmap]
    · intro x hx
      rcases List.mem_cons.mp hx with hx | hx
      · subst hx; exact ⟨hrs, hrf, by omega⟩
      · obtain ⟨a, b, c⟩ := hwin x hx
        exact ⟨by omega, b, c⟩
    · refine List.Pairwise.cons ?_ hpw
      intro x hx
      have := (hwin x hx).1
      omega

theorem dispatch_all_mono (env : Env) (thr : Int) (fuel fuel1 : Nat) (l : List Nat)
    (ts : List TaskRuntime) (w : World) (r : List TaskRuntime × World)
    (h : dispatch_all env thr fuel l ts w = Outcome.done r) (hle : fuel ≤ fuel1) :
    dispatch_all env thr fuel1 l ts w = Outcome.done r := by
  induction l generalizing ts w with
  | nil => simpa [dispatch_all] using h
  | cons i rest ih =>
    obtain ⟨t, t1, wm, hi, hd, hrest⟩ := dispatch_all_cons_done env thr fuel i rest ts w _ h
    unfold dispatch_all
    rw [hi]
    simp only
    rw [dispatch_mono env thr fuel fuel1 i t w _ hd hle]
    exact ih _ _ hrest

/-- With positive periods and valid indices the dispatch loop finishes when
given enough fuel. -/
theorem dispatch_all_done_exists (env : Env) (thr : Int) (l : List Nat)
    (ts : List TaskRuntime) (w : World)
    (hidx : ∀ i ∈ l, i < ts.length) (hpos : ∀ t ∈ ts, 0 < t.spec.period) :
    ∃ fuel r, dispatch_all env thr fuel l ts w = Outcome.done r := by
  induction l generalizing ts w with
  | nil => exact ⟨0, _, rfl⟩
  | cons i rest ih =>
    have hilt : i < ts.length := hidx i (List.mem_cons_self _ _)
    have hi : ts[i]? = some ts[i] := List.getElem?_eq_getElem hilt
    have hp : 0 < ts[i].spec.period := hpos _ (List.getElem_mem _)
    obtain ⟨nr, st, wm, _, hd⟩ := dispatch_done_exists env thr
      ((finish_time env w - ts[i].next_release).toNat + 1) i ts[i] w hp (by omega)
    have hpos1 : ∀ u ∈ ts.set i ⟨ts[i].spec, nr, st⟩, 0 < u.spec.period := by
      intro u hu
      rcases List.mem_or_eq_of_mem_set hu with hu | hu
      · exact hpos u hu
      · rw [hu]; exact hp
    obtain ⟨f2, r, h2⟩ := ih (ts.set i ⟨ts[i].spec, nr, st⟩) wm
      (fun j hj => by simpa using hidx j (List.mem_cons_of_mem _ hj)) hpos1
    refine ⟨max ((finish_time env w - ts[i].next_release).toNat + 1) f2, r, ?_⟩
    unfold dispatch_all
    rw [hi]
    simp only
    rw [dispatch_mono env thr _ _ i ts[i] w _ hd (le_max_left _ _)]
    exact dispatch_all_mono env thr f2 _ rest _ wm r h2 (le_max_right _ _)

/-! ## One wake cycle -/

theorem wake_cycle_eq (env : Env) (fuel : Nat) (s : Scheduler) (w : World) (e : Int)
    (he : earliest s.tasks_ = some e) :
    wake_cycle env fuel s w =
      match dispatch_all env s.lateness_drop_threshold fuel
          (dispatch_order env s.tasks_ (cycle_now env e w)) s.tasks_ (cycle_world env e w) with
      | .done (ts, w3) => .done ({ s with tasks_ := ts }, w3)
      | .spin (ts, w3) => .spin ({ s with tasks_ := ts }, w3)
      | .fault => .fault := by
  simp only [wake_cycle, he, cycle_now, cycle_world]

/-- A finished wake cycle is a finished dispatch loop over the sorted ready list. -/
theorem wake_cycle_done_inv (env : Env) (fuel : Nat) (s s1 : Scheduler) (w w1 : World)
    (h : wake_cycle env fuel s w = Outcome.done (s1, w1)) :
    ∃ e, earliest s.tasks_ = some e ∧
      s1.lateness_drop_threshold = s.lateness_drop_threshold ∧ s1.started_ = s.started_ ∧
      dispatch_all env s.lateness_drop_threshold fuel
        (dispatch_order env s.tasks_ (cycle_now env e w)) s.tasks_ (cycle_world env e w)
        = Outcome.done (s1.tasks_, w1) := by
  cases he : earliest s.tasks_ with
  | none => simp [wake_cycle, he] at h
  | some e =>
    rw [wake_cycle_eq env fuel s w e he] at h
    refine ⟨e, rfl, ?_⟩
    cases hd : dispatch_all env s.lateness_drop_threshold fuel
        (dispatch_order env s.tasks_ (cycle_now env e w)) s.tasks_ (cycle_world env e w) with
    | done p =>
      obtain ⟨ts, w3⟩ := p
      rw [hd] at h
      simp only [Outcome.done.injEq, Prod.mk.injEq] at h
      obtain ⟨h1, h2⟩ := h
      subst h1 h2
      exact ⟨rfl, rfl, rfl⟩
    | spin p => obtain ⟨ts, w3⟩ := p; rw [hd] at h; simp at h
    | fault => rw [hd] at h; simp at h

theorem wake_cycle_of_dispatch_all (env : Env) (fuel : Nat) (s : Scheduler) (w : World)
    (e : Int) (he : earliest s.tasks_ = some e) (ts : List TaskRuntime) (w1 : World)
    (h : dispatch_all env s.lateness_drop_threshold fuel
        (dispatch_order env s.tasks_ (cycle_now env e w)) s.tasks_ (cycle_world env e w)
        = Outcome.done (ts, w1)) :
    wake_cycle env fuel s w = Outcome.done ({ s with tasks_ := ts }, w1) := by
  rw [wake_cycle_eq env fuel s w e he, h]

theorem sublist_pair_of_mem {α : Type} {l : List α} {a b : α} (ha : a ∈ l) (hb : b ∈ l)
    (hne : a ≠ b) : [a, b].Sublist l ∨ [b, a].Sublist l := by
  induction l with
  | nil => simp at ha
  | cons x xs ih =>
    rcases List.mem_cons.mp ha with hax | hax
    · rcases List.mem_cons.mp hb with hbx | hbx
      · exact absurd (hax.trans hbx.symm) hne
      · left
        rw [hax]
        exact List.Sublist.cons₂ x (List.singleton_sublist.mpr hbx)
    · rcases List.mem_cons.mp hb with hbx | hbx
      · right
        rw [hbx]
        exact List.Sublist.cons₂ x (List.singleton_sublist.mpr hax)
      · rcases ih hax hbx with h | h
        · exact Or.inl (List.Sublist.cons x h)
        · exact Or.inr (List.Sublist.cons x h)

/-- With a conforming sort, positive periods and a non-empty task list, a wake
cycle finishes when given enough fuel. -/
theorem wake_cycle_done_exists (env : Env) (hs : StdSortContract env.sort) (s : Scheduler)
    (w : World) (e : Int) (he : earliest s.tasks_ = some e)
    (hpos : ∀ t ∈ s.tasks_, 0 < t.spec.period) :
    ∃ fuel0 s1 w1, ∀ fuel, fuel0 ≤ fuel → wake_cycle env fuel s w = Outcome.done (s1, w1) := by
  have hidx : ∀ i ∈ dispatch_order env s.tasks_ (cycle_now env e w), i < s.tasks_.length := by
    intro i hi
    have := ((dispatch_order_spec env hs s.tasks_ (cycle_now env e w)).1.mem_iff).mp hi
    obtain ⟨t, ht, _⟩ := mem_collect_ready.mp this
    exact (List.getElem?_eq_some.mp ht).1
  obtain ⟨fuel0, ⟨ts, w1⟩, hd⟩ := dispatch_all_done_exists env s.lateness_drop_threshold
    (dispatch_order env s.tasks_ (cycle_now env e w)) s.tasks_ (cycle_world env e w) hidx hpos
  refine ⟨fuel0, { s with tasks_ := ts }, w1, fun fuel hle => ?_⟩
  exact wake_cycle_of_dispatch_all env fuel s w e he ts w1
    (dispatch_all_mono env _ fuel0 fuel _ _ _ _ hd hle)

/-- Claim C6. With a `std::sort` that meets its contract, positive periods and
at least one task, every wake cycle finishes (given enough fuel) and its
dispatch records, in the order they were made, name exactly the ready tasks
(those with `next_release <= now`), each once, in non-increasing priority;
each record is finished before the next one starts, so of two ready tasks with
different priorities the higher one is dispatched first and its work has
returned before the dispatch of the lower one begins. -/
theorem wake_cycle_priority_order (env : Env) (hs : StdSortContract env.sort) (s : Scheduler)
    (w : World) (e : Int) (he : earliest s.tasks_ = some e)
    (hpos : ∀ t ∈ s.tasks_, 0 < t.spec.period) :
    ∃ fuel0 s1 w1 recs, (∀ fuel, fuel0 ≤ fuel → wake_cycle env fuel s w = Outcome.done (s1, w1)) ∧
      w1.trace = w.trace ++ recs ∧
      (recs.map DispatchRec.task).Perm (collect_ready s.tasks_ (cycle_now env e w)) ∧
      (recs.map DispatchRec.task).Nodup ∧
      (∀ i, i ∈ recs.map DispatchRec.task ↔
        ∃ t, s.tasks_[i]? = some t ∧ t.next_release ≤ cycle_now env e w) ∧
      recs.Pairwise (fun a b =>
        priority_of s.tasks_ b.task ≤ priority_of s.tasks_ a.task ∧ a.finish ≤ b.start) ∧
      (∀ a ∈ recs, ∀ b ∈ recs, priority_of s.tasks_ b.task < priority_of s.tasks_ a.task →
        [a, b].Sublist recs ∧ a.finish ≤ b.start) := by
  obtain ⟨fuel0, s1, w1, hdone⟩ := wake_cycle_done_exists env hs s w e he hpos
  obtain ⟨e1, he1, _, _, hd⟩ := wake_cycle_done_inv env fuel0 s s1 w w1 (hdone fuel0 (le_refl _))
  have hee : e1 = e := by rw [he] at he1; exact (Option.some.inj he1).symm
  subst hee
  obtain ⟨_, recs, htr, hmap, _, hpw⟩ := dispatch_all_trace env _ fuel0 _ _ _ _ _ hd
  obtain ⟨hperm, hprio⟩ := dispatch_order_spec env hs s.tasks_ (cycle_now env e1 w)
  have hR : recs.Pairwise (fun a b =>
      priority_of s.tasks_ b.task ≤ priority_of s.tasks_ a.task ∧ a.finish ≤ b.start) := by
    have h1 : recs.Pairwise (fun a b =>
        priority_of s.tasks_ b.task ≤ priority_of s.tasks_ a.task) := by
      rw [← hmap] at hprio
      exact List.pairwise_map.mp hprio
    exact h1.and hpw
  refine ⟨fuel0, s1, w1, recs, hdone, ?_, ?_, ?_, ?_, hR, ?_⟩
  · rw [htr]; rfl
  · rw [hmap]; exact hperm
  · rw [hmap]; exact hperm.nodup_iff.mpr (collect_ready_nodup _ _)
  · intro i
    rw [hmap, hperm.mem_iff]
    exact mem_collect_ready
  · intro a ha b hb hlt
    have hne : a ≠ b := by
      rintro rfl
      exact lt_irrefl _ hlt
    rcases sublist_pair_of_mem ha hb hne with h | h
    · exact ⟨h, (List.pairwise_iff_forall_sublist.mp hR h).2⟩
    · have := (List.pairwise_iff_forall_sublist.mp hR h).1
      omega

theorem sched_prio_positive : ∀ t ∈ sched_prio.tasks_, 0 < t.spec.period := by
  intro t ht
  simp only [sched_prio, sched_reg, Scheduler.start, Scheduler.add_task, Scheduler.init, List.nil_append,
    List.singleton_append, List.map_cons, List.map_nil, List.mem_cons, List.mem_singleton,
    List.not_mem_nil, or_false] at ht
  rcases ht with rfl | rfl <;> decide

theorem sched_tie_positive : ∀ t ∈ sched_tie.tasks_, 0 < t.spec.period := by
  intro t ht
  simp only [sched_tie, Scheduler.start, Scheduler.add_task, Scheduler.init, List.nil_append,
    List.singleton_append, List.map_cons, List.map_nil, List.mem_cons, List.mem_singleton,
    List.not_mem_nil, or_false] at ht
  rcases ht with rfl | rfl <;> decide

/-- Witness for `wake_cycle_priority_order`: priorities 1 and 3 released together. -/
theorem wake_cycle_priority_order_witness :
    StdSortContract Env.ideal.sort ∧ earliest sched_prio.tasks_ = some 10 ∧
    (∀ t ∈ sched_prio.tasks_, 0 < t.spec.period) ∧
    ∃ fuel0 s1 w1 recs,
      (∀ fuel, fuel0 ≤ fuel →
        wake_cycle Env.ideal fuel sched_prio ⟨0, 0, []⟩ = Outcome.done (s1, w1)) ∧
      w1.trace = [] ++ recs ∧
      (recs.map DispatchRec.task).Perm
        (collect_ready sched_prio.tasks_ (cycle_now Env.ideal 10 ⟨0, 0, []⟩)) ∧
      (recs.map DispatchRec.task).Nodup ∧
      (∀ i, i ∈ recs.map DispatchRec.task ↔
        ∃ t, sched_prio.tasks_[i]? = some t ∧
          t.next_release ≤ cycle_now Env.ideal 10 ⟨0, 0, []⟩) ∧
      recs.Pairwise (fun a b =>
        priority_of sched_prio.tasks_ b.task ≤ priority_of sched_prio.tasks_ a.task ∧
          a.finish ≤ b.start) ∧
      (∀ a ∈ recs, ∀ b ∈ recs,
        priority_of sched_prio.tasks_ b.task < priority_of sched_prio.tasks_ a.task →
        [a, b].Sublist recs ∧ a.finish ≤ b.start) :=
  ⟨stable_sort_contract, by decide, sched_prio_positive,
    wake_cycle_priority_order Env.ideal stable_sort_contract sched_prio ⟨0, 0, []⟩ 10
      (by decide) sched_prio_positive⟩

/-- The cycle of the witness above, evaluated: the task registered second
(priority 3) is dispatched before the one registered first (priority 1). -/
theorem wake_cycle_example_order :
    (wake_cycle Env.ideal 1 sched_prio ⟨0, 0, []⟩).state.map
      (fun r => r.2.trace.map DispatchRec.task) = some [1, 0] := by
  decide

/-! ## Equal priorities -/

set_option maxRecDepth 100000 in
/-- Claim C7, as stated, fails. With the `std::sort` of libstdc++ and
seventeen ready tasks of one priority, registered as indices 0 to 16 and all
due at the same instant, the wake cycle dispatches task 8 first and task 0
tenth: tasks 8 to 16 all run before task 0, which was registered before them. -/
theorem equal_priority_not_registration_order :
    (∀ i ∈ List.range 17, priority_of sched_ties17.tasks_ i = 2) ∧
    collect_ready sched_ties17.tasks_ (cycle_now Env.libstdcxx 10 ⟨0, 0, []⟩) = List.range 17 ∧
    (wake_cycle Env.libstdcxx 1 sched_ties17 ⟨0, 0, []⟩).state.map
      (fun r => r.2.trace.map DispatchRec.task) =
        some [8, 16, 15, 14, 13, 12, 11, 10, 9, 0, 7, 6, 5, 4, 3, 2, 1] := by
  refine ⟨by decide, by decide, by decide⟩

/-- With the `std::sort` of libstdc++ the two equal-priority tasks of
`sched_tie` are dispatched in registration order: a range of at most 16
elements only goes through the insertion sort. -/
theorem equal_priority_two_tasks_libstdcxx :
    (wake_cycle Env.libstdcxx 1 sched_tie ⟨0, 0, []⟩).state.map
      (fun r => r.2.trace.map DispatchRec.task) = some [0, 1] := by
  decide

theorem stable_sort_keepsTies : KeepsTies stable_sort := by
  intro cmp l a b hab h
  exact List.pair_sublist_insertionSort hab h

/-- Claim C7, amended. With a `std::sort` that meets its contract, ready tasks
of equal priority are dispatched as one group: no task of another priority is
dispatched between two of them. Their relative order is that of the sort; it
is the registration order whenever the sort keeps ties, which the contract of
`std::sort` does not demand. -/
theorem equal_priority_dispatch (env : Env) (hs : StdSortContract env.sort) (s : Scheduler)
    (w : World) (e : Int) (he : earliest s.tasks_ = some e)
    (hpos : ∀ t ∈ s.tasks_, 0 < t.spec.period) :
    ∃ fuel0 s1 w1 recs, (∀ fuel, fuel0 ≤ fuel → wake_cycle env fuel s w = Outcome.done (s1, w1)) ∧
      w1.trace = w.trace ++ recs ∧
      (∀ i c j, [i, c, j].Sublist (recs.map DispatchRec.task) →
        priority_of s.tasks_ i = priority_of s.tasks_ j →
        priority_of s.tasks_ c = priority_of s.tasks_ i) ∧
      (KeepsTies env.sort →
        ∀ i j, i ∈ recs.map DispatchRec.task → j ∈ recs.map DispatchRec.task → i < j →
          priority_of s.tasks_ i = priority_of s.tasks_ j →
          [i, j].Sublist (recs.map DispatchRec.task)) := by
  obtain ⟨fuel0, s1, w1, hdone⟩ := wake_cycle_done_exists env hs s w e he hpos
  obtain ⟨e1, he1, _, _, hd⟩ := wake_cycle_done_inv env fuel0 s s1 w w1 (hdone fuel0 (le_refl _))
  have hee : e1 = e := by rw [he] at he1; exact (Option.some.inj he1).symm
  subst hee
  obtain ⟨_, recs, htr, hmap, _, _⟩ := dispatch_all_trace env _ fuel0 _ _ _ _ _ hd
  obtain ⟨hperm, hprio⟩ := dispatch_order_spec env hs s.tasks_ (cycle_now env e1 w)
  refine ⟨fuel0, s1, w1, recs, hdone, by rw [htr]; rfl, ?_, ?_⟩
  · intro i c j hsub heq
    rw [hmap] at hsub
    have h1 : [i, c].Sublist (dispatch_order env s.tasks_ (cycle_now env e1 w)) :=
      List.Sublist.trans (List.Sublist.cons₂ i (List.Sublist.cons₂ c (List.nil_sublist _))) hsub
    have h2 : [c, j].Sublist (dispatch_order env s.tasks_ (cycle_now env e1 w)) :=
      List.Sublist.trans (List.Sublist.cons i (List.Sublist.refl _)) hsub
    have a1 := List.pairwise_iff_forall_sublist.mp hprio h1
    have a2 := List.pairwise_iff_forall_sublist.mp hprio h2
    omega
  · intro hk i j hi hj hlt heq
    rw [hmap] at hi hj ⊢
    have hi1 := hperm.mem_iff.mp hi
    have hj1 := hperm.mem_iff.mp hj
    have hsub : [i, j].Sublist (collect_ready s.tasks_ (cycle_now env e1 w)) := by
      rcases sublist_pair_of_mem hi1 hj1 (Nat.ne_of_lt hlt) with h | h
      · exact h
      · have := List.pairwise_iff_forall_sublist.mp (collect_ready_sorted s.tasks_ _) h
        omega
    refine hk (higher_first s.tasks_) _ i j ?_ hsub
    simp only [higher_first, decide_eq_false_iff_not, not_lt]
    omega

/-- Witness for `equal_priority_dispatch`: with insertion sort the two tasks of
`sched_tie` keep their registration order. -/
theorem equal_priority_dispatch_witness :
    StdSortContract Env.ideal.sort ∧ earliest sched_tie.tasks_ = some 10 ∧
    (∀ t ∈ sched_tie.tasks_, 0 < t.spec.period) ∧ KeepsTies Env.ideal.sort ∧
    ∃ fuel0 s1 w1 recs,
      (∀ fuel, fuel0 ≤ fuel →
        wake_cycle Env.ideal fuel sched_tie ⟨0, 0, []⟩ = Outcome.done (s1, w1)) ∧
      w1.trace = [] ++ recs ∧
      (∀ i c j, [i, c, j].Sublist (recs.map DispatchRec.task) →
        priority_of sched_tie.tasks_ i = priority_of sched_tie.tasks_ j →
        priority_of sched_tie.tasks_ c = priority_of sched_tie.tasks_ i) ∧
      (KeepsTies Env.ideal.sort →
        ∀ i j, i ∈ recs.map DispatchRec.task → j ∈ recs.map DispatchRec.task → i < j →
          priority_of sched_tie.tasks_ i = priority_of sched_tie.tasks_ j →
          [i, j].Sublist (recs.map DispatchRec.task)) :=
  ⟨stable_sort_contract, by decide, sched_tie_positive, stable_sort_keepsTies,
    equal_priority_dispatch Env.ideal stable_sort_contract sched_tie ⟨0, 0, []⟩ 10
      (by decide) sched_tie_positive⟩

/-! ## Runs of wake cycles -/

/-- One finished wake cycle keeps the number of tasks and every spec, and
moves every release forward by a whole number of periods. -/
theorem cycleStep_inv (env : Env) (a b : Scheduler × World) (h : CycleStep env a b) :
    b.1.tasks_.length = a.1.tasks_.length ∧
    ∀ (j : Nat) (t : TaskRuntime), a.1.tasks_[j]? = some t →
      ∃ t1 : TaskRuntime, b.1.tasks_[j]? = some t1 ∧ t1.spec = t.spec ∧
        ∃ k : Nat, t1.next_release = t.next_release + (k : Int) * t.spec.period := by
  obtain ⟨fuel, hw⟩ := h
  obtain ⟨s1, w1⟩ := b
  obtain ⟨e, _, _, _, hd⟩ := wake_cycle_done_inv env fuel a.1 s1 a.2 w1 hw
  obtain ⟨hlen, hall⟩ := dispatch_all_tasks env _ fuel _ _ _ _ _ hd
  refine ⟨hlen, fun j t ht => ?_⟩
  obtain ⟨t1, h1, h2, ⟨k, hk, _⟩, _⟩ := hall j t ht
  exact ⟨t1, h1, h2, k, hk⟩

theorem reaches_inv (env : Env) (a b : Scheduler × World) (h : Reaches env a b) :
    b.1.tasks_.length = a.1.tasks_.length ∧
    ∀ (j : Nat) (t : TaskRuntime), a.1.tasks_[j]? = some t →
      ∃ t1 : TaskRuntime, b.1.tasks_[j]? = some t1 ∧ t1.spec = t.spec ∧
        ∃ k : Nat, t1.next_release = t.next_release + (k : Int) * t.spec.period := by
  induction h with
  | refl => exact ⟨rfl, fun j t ht => ⟨t, ht, rfl, 0, by simp⟩⟩
  | tail _ hstep ih =>
    obtain ⟨hlen, hall⟩ := ih
    obtain ⟨hlen1, hall1⟩ := cycleStep_inv env _ _ hstep
    refine ⟨hlen1.trans hlen, fun j t ht => ?_⟩
    obtain ⟨t1, h1, hs1, k1, hk1⟩ := hall j t ht
    obtain ⟨t2, h2, hs2, k2, hk2⟩ := hall1 j t1 h1
    refine ⟨t2, h2, hs2.trans hs1, k1 + k2, ?_⟩
    rw [hk2, hk1, hs1]; push_cast; ring

/-- Claim C2. Let the tasks be registered with positive periods and the
scheduler started at `t0`. In every state `a` reached by finished wake cycles
every task has `next_release = t0 + ka * period` with `ka >= 1`; and in every
state `b` reached later from `a` the same holds with `kb >= ka`, so the release
never moves back and moves forward exactly when `k` grows. The number of
tasks and their specs stay those registered. -/
theorem next_release_lattice (env : Env) (s0 : Scheduler) (t0 : Int) (w0 : World)
    (hpos : ∀ t ∈ s0.tasks_, 0 < t.spec.period) (a b : Scheduler × World)
    (ha : Reaches env (s0.start t0, w0) a) (hb : Reaches env a b) :
    a.1.tasks_.length = s0.tasks_.length ∧ b.1.tasks_.length = s0.tasks_.length ∧
    ∀ (i : Nat) (t : TaskRuntime), s0.tasks_[i]? = some t →
      ∃ ta tb : TaskRuntime, a.1.tasks_[i]? = some ta ∧ b.1.tasks_[i]? = some tb ∧
        ta.spec = t.spec ∧ tb.spec = t.spec ∧
        ∃ ka kb : Nat, 1 ≤ ka ∧ ka ≤ kb ∧
          ta.next_release = t0 + (ka : Int) * t.spec.period ∧
          tb.next_release = t0 + (kb : Int) * t.spec.period ∧
          ta.next_release ≤ tb.next_release ∧
          (ta.next_release < tb.next_release ↔ ka < kb) := by
  obtain ⟨hlena, halla⟩ := reaches_inv env _ _ ha
  obtain ⟨hlenb, hallb⟩ := reaches_inv env _ _ hb
  have hlen0 : (s0.start t0).tasks_.length = s0.tasks_.length := by simp [Scheduler.start]
  refine ⟨hlena.trans hlen0, (hlenb.trans hlena).trans hlen0, fun i t ht => ?_⟩
  have hst : (s0.start t0).tasks_[i]? = some ⟨t.spec, t0 + t.spec.period, t.stats⟩ := by
    simp [Scheduler.start, List.getElem?_map, ht]
  have hp : 0 < t.spec.period := hpos t (List.getElem?_mem ht)
  obtain ⟨ta, h1, hs1, k1, hk1⟩ := halla i _ hst
  obtain ⟨tb, h2, hs2, k2, hk2⟩ := hallb i ta h1
  simp only at hs1 hk1
  refine ⟨ta, tb, h1, h2, hs1, hs2.trans hs1, 1 + k1, 1 + k1 + k2, by omega, by omega, ?_, ?_, ?_, ?_⟩
  · rw [hk1]; push_cast; ring
  · rw [hk2, hk1, hs1]; push_cast; ring
  · rw [hk2, hs1]
    have : 0 ≤ (k2 : Int) * t.spec.period := mul_nonneg (by omega) (le_of_lt hp)
    omega
  · rw [hk2, hs1]
    constructor
    · intro hlt
      have hk : k2 ≠ 0 := by
        rintro rfl
        simp at hlt
      omega
    · intro hlt
      have hk : 0 < (k2 : Int) := by omega
      have : 0 < (k2 : Int) * t.spec.period := mul_pos hk hp
      omega

theorem sched_reg_positive : ∀ t ∈ sched_reg.tasks_, 0 < t.spec.period := by
  intro t ht
  simp only [sched_reg, Scheduler.add_task, Scheduler.init, List.nil_append,
    List.singleton_append, List.mem_cons, List.mem_singleton, List.not_mem_nil, or_false] at ht
  rcases ht with rfl | rfl <;> decide

theorem sched_prio_first_cycle :
    wake_cycle Env.ideal 1 sched_prio ⟨0, 0, []⟩ = Outcome.done (sched_prio_1, world_prio_1) := by
  decide

/-- Witness for `next_release_lattice`: the state after the first wake cycle of
`sched_prio`, where both tasks have moved from `0 + 1 * 10` to `0 + 2 * 10`. -/
theorem next_release_lattice_witness :
    (∀ t ∈ sched_reg.tasks_, 0 < t.spec.period) ∧
    Reaches Env.ideal (sched_reg.start 0, ⟨0, 0, []⟩) (sched_reg.start 0, ⟨0, 0, []⟩) ∧
    Reaches Env.ideal (sched_reg.start 0, ⟨0, 0, []⟩) (sched_prio_1, world_prio_1) ∧
    (sched_reg.start 0).tasks_.length = sched_reg.tasks_.length ∧
    sched_prio_1.tasks_.length = sched_reg.tasks_.length ∧
    ∀ (i : Nat) (t : TaskRuntime), sched_reg.tasks_[i]? = some t →
      ∃ ta tb : TaskRuntime, (sched_reg.start 0).tasks_[i]? = some ta ∧
        sched_prio_1.tasks_[i]? = some tb ∧
        ta.spec = t.spec ∧ tb.spec = t.spec ∧
        ∃ ka kb : Nat, 1 ≤ ka ∧ ka ≤ kb ∧
          ta.next_release = 0 + (ka : Int) * t.spec.period ∧
          tb.next_release = 0 + (kb : Int) * t.spec.period ∧
          ta.next_release ≤ tb.next_release ∧
          (ta.next_release < tb.next_release ↔ ka < kb) :=
  ⟨sched_reg_positive, Relation.ReflTransGen.refl,
    Relation.ReflTransGen.single ⟨1, sched_prio_first_cycle⟩,
    next_release_lattice Env.ideal sched_reg 0 ⟨0, 0, []⟩ sched_reg_positive
      (sched_reg.start 0, ⟨0, 0, []⟩) (sched_prio_1, world_prio_1)
      Relation.ReflTransGen.refl (Relation.ReflTransGen.single ⟨1, sched_prio_first_cycle⟩)⟩

/-! ## Counters and sums of TaskStats -/

/-- Claim C11. After any sequence of `observe` calls with non-negative jitter
and exec values on a zero-initialised `TaskStats`, in 64-bit unsigned
arithmetic (modulo `2 ^ 64`): `releases` is the number of calls, `overruns`
the number of calls whose flag was true, `jitter_sum_ns` the sum of the jitter
values and `exec_sum_ns` the sum of the exec values; all four are exactly
those numbers whenever these are below `2 ^ 64`. -/
theorem observe_all_counts (l : List Obs) (hnn : ∀ o ∈ l, 0 ≤ o.jitter ∧ 0 ≤ o.exec) :
    (TaskStats.zero.observe_all l).releases = l.length % 2 ^ 64 ∧
    (TaskStats.zero.observe_all l).overruns = (l.countP (fun o => o.overrun)) % 2 ^ 64 ∧
    ((TaskStats.zero.observe_all l).jitter_sum_ns : Int) = (l.map Obs.jitter).sum % 2 ^ 64 ∧
    ((TaskStats.zero.observe_all l).exec_sum_ns : Int) = (l.map Obs.exec).sum % 2 ^ 64 ∧
    (l.length < 2 ^ 64 → (TaskStats.zero.observe_all l).releases = l.length) ∧
    (l.countP (fun o => o.overrun) < 2 ^ 64 →
      (TaskStats.zero.observe_all l).overruns = l.countP (fun o => o.overrun)) ∧
    ((l.map Obs.jitter).sum < 2 ^ 64 →
      ((TaskStats.zero.observe_all l).jitter_sum_ns : Int) = (l.map Obs.jitter).sum) ∧
    ((l.map Obs.exec).sum < 2 ^ 64 →
      ((TaskStats.zero.observe_all l).exec_sum_ns : Int) = (l.map Obs.exec).sum) := by
  have key : (TaskStats.zero.observe_all l).overruns = (l.countP (fun o => o.overrun)) % 2 ^ 64 ∧
      ((TaskStats.zero.observe_all l).jitter_sum_ns : Int) = (l.map Obs.jitter).sum % 2 ^ 64 ∧
      ((TaskStats.zero.observe_all l).exec_sum_ns : Int) = (l.map Obs.exec).sum % 2 ^ 64 ∧
      0 ≤ (l.map Obs.jitter).sum ∧ 0 ≤ (l.map Obs.exec).sum := by
    induction l using List.reverseRecOn with
    | nil => simp [TaskStats.observe_all, TaskStats.zero]
    | append_singleton l o ih =>
      have hl : ∀ x ∈ l, 0 ≤ x.jitter ∧ 0 ≤ x.exec :=
        fun x hx => hnn x (List.mem_append_left _ hx)
      have ho : 0 ≤ o.jitter ∧ 0 ≤ o.exec := hnn o (by simp)
      obtain ⟨h1, h2, h3, h4, h5⟩ := ih hl
      rw [observe_all_append]
      simp only [TaskStats.observe, List.countP_append, List.countP_cons, List.countP_nil,
        List.map_append, List.map_cons, List.map_nil, List.sum_append, List.sum_cons,
        List.sum_nil, add_zero, zero_add, to_u64]
      have hj : ¬ o.jitter < 0 := by omega
      rw [if_neg hj]
      refine ⟨?_, ?_, ?_, by omega, by omega⟩
      · cases hov : o.overrun with
        | true => simp only [if_true]; omega
        | false => simp only [Bool.false_eq_true, if_false]; omega
      · omega
      · omega
  obtain ⟨h2, h3, h4, h5, h6⟩ := key
  have h1 := observe_all_releases l
  refine ⟨h1, h2, h3, h4, ?_, ?_, ?_, ?_⟩
  · intro h; rw [h1]; exact Nat.mod_eq_of_lt h
  · intro h; rw [h2]; exact Nat.mod_eq_of_lt h
  · intro h; rw [h3]; omega
  · intro h; rw [h4]; omega

theorem obs_sample_nonneg : ∀ o ∈ obs_sample, 0 ≤ o.jitter ∧ 0 ≤ o.exec := by
  intro o ho
  simp only [obs_sample, List.mem_cons, List.mem_singleton, List.not_mem_nil, or_false] at ho
  rcases ho with rfl | rfl <;> decide

/-- Witness for `observe_all_counts`: the two observations of `obs_sample`. -/
theorem observe_all_counts_witness :
    (∀ o ∈ obs_sample, 0 ≤ o.jitter ∧ 0 ≤ o.exec) ∧
    (TaskStats.zero.observe_all obs_sample).releases = obs_sample.length % 2 ^ 64 ∧
    (TaskStats.zero.observe_all obs_sample).overruns
      = (obs_sample.countP (fun o => o.overrun)) % 2 ^ 64 ∧
    ((TaskStats.zero.observe_all obs_sample).jitter_sum_ns : Int)
      = (obs_sample.map Obs.jitter).sum % 2 ^ 64 ∧
    ((TaskStats.zero.observe_all obs_sample).exec_sum_ns : Int)
      = (obs_sample.map Obs.exec).sum % 2 ^ 64 ∧
    (obs_sample.length < 2 ^ 64 →
      (TaskStats.zero.observe_all obs_sample).releases = obs_sample.length) ∧
    (obs_sample.countP (fun o => o.overrun) < 2 ^ 64 →
      (TaskStats.zero.observe_all obs_sample).overruns
        = obs_sample.countP (fun o => o.overrun)) ∧
    ((obs_sample.map Obs.jitter).sum < 2 ^ 64 →
      ((TaskStats.zero.observe_all obs_sample).jitter_sum_ns : Int)
        = (obs_sample.map Obs.jitter).sum) ∧
    ((obs_sample.map Obs.exec).sum < 2 ^ 64 →
      ((TaskStats.zero.observe_all obs_sample).exec_sum_ns : Int)
        = (obs_sample.map Obs.exec).sum) :=
  ⟨obs_sample_nonneg, observe_all_counts obs_sample obs_sample_nonneg⟩

/-- The stats after `obs_sample`, evaluated. -/
theorem observe_sample_value :
    TaskStats.zero.observe_all obs_sample = ⟨2, 1, 3, 5, 8, 7, 9, 16⟩ := by
  decide

/-! ## Means -/

theorem isMinOf_mul_length_le_sum {m : Int} {l : List Int} (h : IsMinOf m l) :
    m * l.length ≤ l.sum := by
  have := List.card_nsmul_le_sum l m h.2
  simpa [mul_comm] using this

theorem sum_le_isMaxOf_mul_length {m : Int} {l : List Int} (h : IsMaxOf m l) :
    l.sum ≤ m * l.length := by
  have := List.sum_le_card_nsmul l m h.2
  simpa [mul_comm] using this

/-- Claim C12. For a `TaskStats` produced from zero by a non-empty sequence of
observations (so `releases >= 1`; fewer than `2 ^ 64` of them, so the counter
has not wrapped) with non-negative jitter and exec values whose sums stay
below `2 ^ 64`, the means `sum / releases`, taken as exact rationals, lie
between the recorded minimum and maximum, for jitter and for exec. -/
theorem mean_between_extrema (l : List Obs) (hne : l ≠ []) (hlen : l.length < 2 ^ 64)
    (hnn : ∀ o ∈ l, 0 ≤ o.jitter ∧ 0 ≤ o.exec)
    (hjs : (l.map Obs.jitter).sum < 2 ^ 64) (hes : (l.map Obs.exec).sum < 2 ^ 64) :
    1 ≤ (TaskStats.zero.observe_all l).releases ∧
    ((TaskStats.zero.observe_all l).jitter_min_ns : ℚ) ≤
      ((TaskStats.zero.observe_all l).jitter_sum_ns : ℚ) /
        ((TaskStats.zero.observe_all l).releases : ℚ) ∧
    ((TaskStats.zero.observe_all l).jitter_sum_ns : ℚ) /
        ((TaskStats.zero.observe_all l).releases : ℚ) ≤
      ((TaskStats.zero.observe_all l).jitter_max_ns : ℚ) ∧
    ((TaskStats.zero.observe_all l).exec_min_ns : ℚ) ≤
      ((TaskStats.zero.observe_all l).exec_sum_ns : ℚ) /
        ((TaskStats.zero.observe_all l).releases : ℚ) ∧
    ((TaskStats.zero.observe_all l).exec_sum_ns : ℚ) /
        ((TaskStats.zero.observe_all l).releases : ℚ) ≤
      ((TaskStats.zero.observe_all l).exec_max_ns : ℚ) := by
  obtain ⟨_, _, _, _, hr, _, hj, he⟩ := observe_all_counts l hnn
  obtain ⟨m1, m2, m3, m4⟩ := observe_all_extrema l hne (le_of_lt hlen)
  have hrel := hr hlen
  have hjsum := hj hjs
  have hesum := he hes
  have hpos : 0 < l.length := List.length_pos.mpr hne
  have hposq : (0 : ℚ) < (l.length : ℚ) := by exact_mod_cast hpos
  have a1 := isMinOf_mul_length_le_sum m1
  have a2 := sum_le_isMaxOf_mul_length m2
  have a3 := isMinOf_mul_length_le_sum m3
  have a4 := sum_le_isMaxOf_mul_length m4
  simp only [List.length_map] at a1 a2 a3 a4
  rw [← hjsum] at a1 a2
  rw [← hesum] at a3 a4
  rw [hrel]
  refine ⟨hpos, ?_, ?_, ?_, ?_⟩
  · rw [le_div_iff₀ hposq]; exact_mod_cast a1
  · rw [div_le_iff₀ hposq]; exact_mod_cast a2
  · rw [le_div_iff₀ hposq]; exact_mod_cast a3
  · rw [div_le_iff₀ hposq]; exact_mod_cast a4

/-- Witness for `mean_between_extrema`: for `obs_sample` the mean jitter 8/2
lies in [3, 5] and the mean exec 16/2 in [7, 9]. -/
theorem mean_between_extrema_witness :
    obs_sample ≠ [] ∧ obs_sample.length < 2 ^ 64 ∧
    (∀ o ∈ obs_sample, 0 ≤ o.jitter ∧ 0 ≤ o.exec) ∧
    (obs_sample.map Obs.jitter).sum < 2 ^ 64 ∧ (obs_sample.map Obs.exec).sum < 2 ^ 64 ∧
    1 ≤ (TaskStats.zero.observe_all obs_sample).releases ∧
    ((TaskStats.zero.observe_all obs_sample).jitter_min_ns : ℚ) ≤
      ((TaskStats.zero.observe_all obs_sample).jitter_sum_ns : ℚ) /
        ((TaskStats.zero.observe_all obs_sample).releases : ℚ) ∧
    ((TaskStats.zero.observe_all obs_sample).jitter_sum_ns : ℚ) /
        ((TaskStats.zero.observe_all obs_sample).releases : ℚ) ≤
      ((TaskStats.zero.observe_all obs_sample).jitter_max_ns : ℚ) ∧
    ((TaskStats.zero.observe_all obs_sample).exec_min_ns : ℚ) ≤
      ((TaskStats.zero.observe_all obs_sample).exec_sum_ns : ℚ) /
        ((TaskStats.zero.observe_all obs_sample).releases : ℚ) ∧
    ((TaskStats.zero.observe_all obs_sample).exec_sum_ns : ℚ) /
        ((TaskStats.zero.observe_all obs_sample).releases : ℚ) ≤
      ((TaskStats.zero.observe_all obs_sample).exec_max_ns : ℚ) :=
  ⟨by decide, by decide, obs_sample_nonneg, by decide, by decide,
    mean_between_extrema obs_sample (by decide) (by decide) obs_sample_nonneg
      (by decide) (by decide)⟩

/-! ## What a run dispatch records -/

/-- Claim C13. A dispatch that is not dropped, with scheduled release `r`,
dispatch reading `s`, finish reading `f` and period `p`, makes exactly one
observation, `observe (max 0 (s - r)) (f - s) (f > r + p)`: the jitter recorded
is never negative, `releases` goes up by one (modulo `2 ^ 64`), and `overruns`
goes up by one (modulo `2 ^ 64`) when `f > r + p` and keeps its value
otherwise. This holds whether or not the catch-up loop has finished. -/
theorem run_dispatch_observation (env : Env) (thr : Int) (fuel i : Nat) (t : TaskRuntime)
    (w : World) (hrun : is_dropped thr t (start_time env w) = false) :
    ∃ t1 w1, (dispatch env thr fuel i t w).state = some (t1, w1) ∧
      t1.stats = t.stats.observe (max 0 (start_time env w - t.next_release))
        (finish_time env w - start_time env w)
        (decide (finish_time env w > t.next_release + t.spec.period)) ∧
      0 ≤ max 0 (start_time env w - t.next_release) ∧
      t1.stats.releases = (t.stats.releases + 1) % 2 ^ 64 ∧
      (finish_time env w > t.next_release + t.spec.period →
        t1.stats.overruns = (t.stats.overruns + 1) % 2 ^ 64) ∧
      (¬ finish_time env w > t.next_release + t.spec.period →
        t1.stats.overruns = t.stats.overruns) ∧
      (t.stats.overruns + 1 < 2 ^ 64 →
        (t1.stats.overruns = t.stats.overruns + 1 ↔
          finish_time env w > t.next_release + t.spec.period)) ∧
      w1.trace = w.trace ++ [⟨i, start_time env w, finish_time env w, true⟩] := by
  have hc : ¬ (t.spec.crit = Criticality.BestEffort ∧ thr > 0 ∧
      (w.now env).1 - t.next_release > thr) := by
    simpa [is_dropped, start_time] using hrun
  obtain ⟨nr, h⟩ := dispatch_run_state env thr fuel i t w hc
  refine ⟨_, _, h, rfl, le_max_left _ _, rfl, ?_, ?_, ?_, rfl⟩
  · intro hov
    simp [stats_after_run, TaskStats.observe, hov]
  · intro hov
    simp [stats_after_run, TaskStats.observe, hov]
  · intro hlt
    by_cases hov : finish_time env w > t.next_release + t.spec.period
    · simp only [stats_after_run, TaskStats.observe, hov, decide_True, if_true, iff_true]
      exact Nat.mod_eq_of_lt hlt
    · simp only [stats_after_run, TaskStats.observe, hov, decide_False, Bool.false_eq_true,
        if_false, iff_false]
      omega

/-- Witness for `run_dispatch_observation`: a Hard task of period 10 released
at 100, dispatched at 126 and finished at 127, which is an overrun. -/
theorem run_dispatch_observation_witness :
    is_dropped 5 ⟨⟨"a", 10, 3, Criticality.Hard⟩, 100, TaskStats.zero⟩
      (start_time (Env.steady 1) ⟨125, 0, []⟩) = false ∧
    ∃ t1 w1, (dispatch (Env.steady 1) 5 30 0
        ⟨⟨"a", 10, 3, Criticality.Hard⟩, 100, TaskStats.zero⟩ ⟨125, 0, []⟩).state
          = some (t1, w1) ∧
      t1.stats = TaskStats.zero.observe (max 0 (start_time (Env.steady 1) ⟨125, 0, []⟩ - 100))
        (finish_time (Env.steady 1) ⟨125, 0, []⟩ - start_time (Env.steady 1) ⟨125, 0, []⟩)
        (decide (finish_time (Env.steady 1) ⟨125, 0, []⟩ > 100 + 10)) ∧
      0 ≤ max 0 (start_time (Env.steady 1) ⟨125, 0, []⟩ - 100) ∧
      t1.stats.releases = (TaskStats.zero.releases + 1) % 2 ^ 64 ∧
      (finish_time (Env.steady 1) ⟨125, 0, []⟩ > 100 + 10 →
        t1.stats.overruns = (TaskStats.zero.overruns + 1) % 2 ^ 64) ∧
      (¬ finish_time (Env.steady 1) ⟨125, 0, []⟩ > 100 + 10 →
        t1.stats.overruns = TaskStats.zero.overruns) ∧
      (TaskStats.zero.overruns + 1 < 2 ^ 64 →
        (t1.stats.overruns = TaskStats.zero.overruns + 1 ↔
          finish_time (Env.steady 1) ⟨125, 0, []⟩ > 100 + 10)) ∧
      w1.trace = [] ++ [⟨0, start_time (Env.steady 1) ⟨125, 0, []⟩,
        finish_time (Env.steady 1) ⟨125, 0, []⟩, true⟩] :=
  ⟨by decide, run_dispatch_observation (Env.steady 1) 5 30 0
    ⟨⟨"a", 10, 3, Criticality.Hard⟩, 100, TaskStats.zero⟩ ⟨125, 0, []⟩ (by decide)⟩

/-- The dispatch of the witness above, evaluated. -/
theorem run_dispatch_example :
    dispatch (Env.steady 1) 5 30 0
        ⟨⟨"a", 10, 3, Criticality.Hard⟩, 100, TaskStats.zero⟩ ⟨125, 0, []⟩ =
      Outcome.done (⟨⟨"a", 10, 3, Criticality.Hard⟩, 130, ⟨1, 1, 26, 26, 26, 1, 1, 1⟩⟩,
        ⟨127, 2, [⟨0, 126, 127, true⟩]⟩) := by
  decide

/-! ## The earliest release -/

theorem foldl_min_spec (l : List TaskRuntime) (init : Int) :
    l.foldl (fun e t => min e t.next_release) init ≤ init ∧
    (∀ t ∈ l, l.foldl (fun e t => min e t.next_release) init ≤ t.next_release) ∧
    (l.foldl (fun e t => min e t.next_release) init = init ∨
      ∃ t ∈ l, t.next_release = l.foldl (fun e t => min e t.next_release) init) := by
  induction l generalizing init with
  | nil => simp
  | cons a l ih =>
    obtain ⟨h1, h2, h3⟩ := ih (min init a.next_release)
    simp only [List.foldl_cons]
    refine ⟨le_trans h1 (min_le_left _ _), ?_, ?_⟩
    · intro t ht
      rcases List.mem_cons.mp ht with rfl | ht
      · exact le_trans h1 (min_le_right _ _)
      · exact h2 t ht
    · rcases h3 with h3 | ⟨t, ht, h3⟩
      · rcases le_total init a.next_release with hc | hc
        · left; rw [h3]; exact min_eq_left hc
        · right
          exact ⟨a, List.mem_cons_self _ _, by rw [h3]; exact (min_eq_right hc).symm⟩
      · exact Or.inr ⟨t, List.mem_cons_of_mem _ ht, h3⟩

/-- Claim C17. For a non-empty task list the wake instant computed at the top
of a cycle is the minimum `next_release`: it is at most the `next_release` of
every task and it is the `next_release` of some task. -/
theorem earliest_is_minimum (ts : List TaskRuntime) (hne : ts ≠ []) :
    ∃ m, earliest ts = some m ∧ (∀ t ∈ ts, m ≤ t.next_release) ∧
      ∃ t ∈ ts, t.next_release = m := by
  cases ts with
  | nil => exact absurd rfl hne
  | cons t0 rest =>
    obtain ⟨h1, h2, h3⟩ := foldl_min_spec (t0 :: rest) t0.next_release
    refine ⟨_, rfl, h2, ?_⟩
    rcases h3 with h3 | h3
    · exact ⟨t0, List.mem_cons_self _ _, h3.symm⟩
    · exact h3

/-- Witness for `earliest_is_minimum`: releases 30, 10 and 20 give 10. -/
theorem earliest_is_minimum_witness :
    ([⟨⟨"a", 10, 3, Criticality.Hard⟩, 30, TaskStats.zero⟩,
      ⟨⟨"b", 50, 2, Criticality.BestEffort⟩, 10, TaskStats.zero⟩,
      ⟨⟨"c", 200, 1, Criticality.Hard⟩, 20, TaskStats.zero⟩] : List TaskRuntime) ≠ [] ∧
    ∃ m, earliest [⟨⟨"a", 10, 3, Criticality.Hard⟩, 30, TaskStats.zero⟩,
      ⟨⟨"b", 50, 2, Criticality.BestEffort⟩, 10, TaskStats.zero⟩,
      ⟨⟨"c", 200, 1, Criticality.Hard⟩, 20, TaskStats.zero⟩] = some m ∧
      (∀ t ∈ ([⟨⟨"a", 10, 3, Criticality.Hard⟩, 30, TaskStats.zero⟩,
        ⟨⟨"b", 50, 2, Criticality.BestEffort⟩, 10, TaskStats.zero⟩,
        ⟨⟨"c", 200, 1, Criticality.Hard⟩, 20, TaskStats.zero⟩] : List TaskRuntime),
          m ≤ t.next_release) ∧
      ∃ t ∈ ([⟨⟨"a", 10, 3, Criticality.Hard⟩, 30, TaskStats.zero⟩,
        ⟨⟨"b", 50, 2, Criticality.BestEffort⟩, 10, TaskStats.zero⟩,
        ⟨⟨"c", 200, 1, Criticality.Hard⟩, 20, TaskStats.zero⟩] : List TaskRuntime),
          t.next_release = m :=
  ⟨by simp, earliest_is_minimum _ (by simp)⟩

/-- The minimum of the witness above, evaluated. -/
theorem earliest_example :
    earliest [⟨⟨"a", 10, 3, Criticality.Hard⟩, 30, TaskStats.zero⟩,
      ⟨⟨"b", 50, 2, Criticality.BestEffort⟩, 10, TaskStats.zero⟩,
      ⟨⟨"c", 200, 1, Criticality.Hard⟩, 20, TaskStats.zero⟩] = some 10 := by
  decide

/-! ## Termination of the catch-up loop -/

theorem catch_up_spin (fuel : Nat) (nr p bound : Int) (hp : p ≤ 0) (hready : nr ≤ bound) :
    catch_up fuel nr p bound = Outcome.spin (nr + fuel * p) := by
  induction fuel generalizing nr with
  | zero => simp [catch_up]
  | succ f ih =>
    unfold catch_up
    have hle : nr + p ≤ bound := by omega
    rw [if_pos hle, ih (nr + p) hle]
    congr 1
    push_cast
    ring

/-- Claim C18. For a ready release (`next_release <= bound`) and a period
`<= 0`, no number `k >= 1` of period additions takes `next_release` past the
bound (integers unbounded), and the catch-up loop is still running after any
number of iterations. For a period `> 0` the loop ends after finitely many additions, with the same
result for every larger fuel. -/
theorem catch_up_termination (nr p bound : Int) :
    (p ≤ 0 → nr ≤ bound →
      (∀ k : Nat, 1 ≤ k → nr + k * p ≤ bound) ∧
      (∀ fuel, catch_up fuel nr p bound = Outcome.spin (nr + fuel * p)) ∧
      (∀ fuel r, catch_up fuel nr p bound ≠ Outcome.done r)) ∧
    (0 < p → ∃ fuel r, ∀ fuel1, fuel ≤ fuel1 → catch_up fuel1 nr p bound = Outcome.done r) := by
  constructor
  · intro hp hready
    refine ⟨?_, ?_, ?_⟩
    · intro k _
      have : (k : Int) * p ≤ 0 := mul_nonpos_of_nonneg_of_nonpos (by omega) hp
      omega
    · intro fuel
      exact catch_up_spin fuel nr p bound hp hready
    · intro fuel r h
      rw [catch_up_spin fuel nr p bound hp hready] at h
      simp at h
  · intro hp
    obtain ⟨r, hr⟩ := catch_up_terminates ((bound - nr).toNat + 1) nr p bound hp (by omega)
    exact ⟨_, r, fun fuel1 hle => catch_up_mono _ _ _ _ _ _ hr hle⟩

/-- Witness for `catch_up_termination`: with period 10 the loop started at 100
against the bound 125 ends at 130; with period 0 it does not end. -/
theorem catch_up_termination_witness :
    ((0 : Int) ≤ 0 ∧ (100 : Int) ≤ 125 ∧
      (∀ k : Nat, 1 ≤ k → (100 : Int) + k * 0 ≤ 125) ∧
      (∀ fuel : Nat, catch_up fuel 100 0 125 = Outcome.spin ((100 : Int) + fuel * 0)) ∧
      (∀ fuel r, catch_up fuel 100 0 125 ≠ Outcome.done r)) ∧
    ((0 : Int) < 10 ∧
      ∃ fuel r, ∀ fuel1, fuel ≤ fuel1 → catch_up fuel1 100 10 125 = Outcome.done r) :=
  ⟨⟨le_refl _, by decide, (catch_up_termination 100 0 125).1 (le_refl _) (by decide)⟩,
    ⟨by decide, (catch_up_termination 100 10 125).2 (by decide)⟩⟩

/-- The two loops of the witness above, evaluated with fuel 5. -/
theorem catch_up_example :
    catch_up 5 100 10 125 = Outcome.done 130 ∧ catch_up 5 100 0 125 = Outcome.spin 100 ∧
    catch_up 5 100 (-10) 125 = Outcome.spin 50 := by
  decide

/-! ## No out-of-range access with at least one task -/

theorem dispatch_ne_fault (env : Env) (thr : Int) (fuel i : Nat) (t : TaskRuntime) (w : World) :
    dispatch env thr fuel i t w ≠ Outcome.fault := by
  by_cases hc : t.spec.crit = Criticality.BestEffort ∧ thr > 0 ∧
      (w.now env).1 - t.next_release > thr
  · rw [dispatch_drop_eq env thr fuel i t w hc]
    cases h : catch_up fuel t.next_release t.spec.period (w.now env).1 with
    | done nr => simp
    | spin nr => simp
    | fault => exact absurd h (catch_up_ne_fault _ _ _ _)
  · rw [dispatch_run_eq env thr fuel i t w hc]
    cases h : catch_up fuel t.next_release t.spec.period ((w.now env).2.now env).1 with
    | done nr => simp
    | spin nr => simp
    | fault => exact absurd h (catch_up_ne_fault _ _ _ _)

theorem dispatch_all_ne_fault (env : Env) (thr : Int) (fuel : Nat) (l : List Nat)
    (ts : List TaskRuntime) (w : World) (hidx : ∀ i ∈ l, i < ts.length) :
    dispatch_all env thr fuel l ts w ≠ Outcome.fault := by
  induction l generalizing ts w with
  | nil => simp [dispatch_all]
  | cons i rest ih =>
    have hilt : i < ts.length := hidx i (List.mem_cons_self _ _)
    unfold dispatch_all
    rw [List.getElem?_eq_getElem hilt]
    simp only
    cases hd : dispatch env thr fuel i ts[i] w with
    | done p =>
      obtain ⟨t1, w1⟩ := p
      simp only
      exact ih _ _ (fun j hj => by simpa using hidx j (List.mem_cons_of_mem _ hj))
    | spin p => obtain ⟨t1, w1⟩ := p; simp
    | fault => exact absurd hd (dispatch_ne_fault _ _ _ _ _ _)

theorem earliest_eq_none_iff (ts : List TaskRuntime) : earliest ts = none ↔ ts = [] := by
  cases ts with
  | nil => simp [earliest]
  | cons t0 rest => simp [earliest]

theorem wake_cycle_ne_fault (env : Env) (hs : StdSortContract env.sort) (fuel : Nat)
    (s : Scheduler) (w : World) (hne : s.tasks_ ≠ []) :
    wake_cycle env fuel s w ≠ Outcome.fault := by
  cases he : earliest s.tasks_ with
  | none => exact absurd ((earliest_eq_none_iff _).mp he) hne
  | some e =>
    rw [wake_cycle_eq env fuel s w e he]
    have hidx : ∀ i ∈ dispatch_order env s.tasks_ (cycle_now env e w), i < s.tasks_.length := by
      intro i hi
      have := ((dispatch_order_spec env hs s.tasks_ (cycle_now env e w)).1.mem_iff).mp hi
      obtain ⟨t, ht, _⟩ := mem_collect_ready.mp this
      exact (List.getElem?_eq_some.mp ht).1
    have hnf := dispatch_all_ne_fault env s.lateness_drop_threshold fuel _ s.tasks_
      (cycle_world env e w) hidx
    cases hd : dispatch_all env s.lateness_drop_threshold fuel
        (dispatch_order env s.tasks_ (cycle_now env e w)) s.tasks_ (cycle_world env e w) with
    | done p => obtain ⟨ts, w3⟩ := p; simp
    | spin p => obtain ⟨ts, w3⟩ := p; simp
    | fault => exact absurd hd hnf

theorem run_once_until_ne_fault (env : Env) (hs : StdSortContract env.sort) (fuel cycles : Nat)
    (stop : Int) (s : Scheduler) (w : World) (hne : s.tasks_ ≠ []) :
    run_once_until env fuel cycles stop s w ≠ Outcome.fault := by
  induction cycles generalizing s w with
  | zero => simp [run_once_until]
  | succ n ih =>
    unfold run_once_until
    split
    · cases hw : wake_cycle env fuel s (w.now env).2 with
      | done p =>
        obtain ⟨s1, w1⟩ := p
        simp only
        have hlen := (cycleStep_inv env (s, (w.now env).2) (s1, w1) ⟨fuel, hw⟩).1
        apply ih
        intro h0
        simp only [h0, List.length_nil] at hlen
        exact hne (List.length_eq_zero.mp hlen.symm)
      | spin p => simp
      | fault => exact absurd hw (wake_cycle_ne_fault env hs fuel s _ hne)
    · simp

theorem run_for_ne_fault (env : Env) (hs : StdSortContract env.sort) (fuel cycles : Nat)
    (dur : Int) (s : Scheduler) (w : World) (hne : s.tasks_ ≠ []) :
    run_for env fuel cycles dur s w ≠ Outcome.fault := by
  unfold run_for
  apply run_once_until_ne_fault env hs
  split
  · exact hne
  · intro h0
    simp only [Scheduler.start, List.map_eq_nil_iff] at h0
    exact hne h0

/-- Claim C19. The read of `tasks_[0]` at the top of a wake cycle is in range
exactly when at least one task is registered. With one or more tasks (and a
`std::sort` that meets its contract) no wake cycle, and no `run_for`, ever makes
an out-of-range access. With no task, `run_for` of a positive duration reaches
the read on the empty vector, provided the loop is entered, that is, no single
clock step lasts as long as the whole duration. -/
theorem first_task_lookup (env : Env) (fuel cycles : Nat) (dur : Int) (s : Scheduler)
    (w : World) :
    ((∃ e, earliest s.tasks_ = some e) ↔ 1 ≤ s.tasks_.length) ∧
    (1 ≤ s.tasks_.length → StdSortContract env.sort →
      wake_cycle env fuel s w ≠ Outcome.fault ∧
      run_for env fuel cycles dur s w ≠ Outcome.fault) ∧
    (s.tasks_ = [] → (∀ k, (env.elapse k : Int) < dur * 1000000000) →
      wake_cycle env fuel s w = Outcome.fault ∧
      run_for env fuel (cycles + 1) dur s w = Outcome.fault) := by
  refine ⟨?_, ?_, ?_⟩
  · cases hts : s.tasks_ with
    | nil => simp [earliest]
    | cons t0 rest => simp [earliest]
  · intro hlen hs
    have hne : s.tasks_ ≠ [] := by
      intro h0
      simp [h0] at hlen
    exact ⟨wake_cycle_ne_fault env hs fuel s w hne, run_for_ne_fault env hs fuel cycles dur s w hne⟩
  · intro h0 hel
    have hwc : ∀ (s1 : Scheduler) (w1 : World), s1.tasks_ = [] →
        wake_cycle env fuel s1 w1 = Outcome.fault := by
      intro s1 w1 h1
      simp [wake_cycle, h1, earliest]
    refine ⟨hwc s w h0, ?_⟩
    unfold run_for
    have hloop : ∀ (s1 : Scheduler) (w1 : World), s1.tasks_ = [] →
        run_once_until env fuel (cycles + 1) ((w1.now env).1 + dur * 1000000000) s1
          (w1.now env).2 = Outcome.fault := by
      intro s1 w1 h1
      unfold run_once_until
      have hlt : (((w1.now env).2).now env).1 < (w1.now env).1 + dur * 1000000000 := by
        have := hel (w1.tick + 1)
        simp only [World.now]
        omega
      rw [if_pos hlt, hwc s1 _ h1]
    apply hloop
    split
    · exact h0
    · simp [Scheduler.start, h0]

/-- Witness for `first_task_lookup`: `sched_reg` has two tasks and never
faults; the empty scheduler faults in its first wake cycle. -/
theorem first_task_lookup_witness :
    (1 ≤ sched_reg.tasks_.length ∧ StdSortContract Env.ideal.sort ∧
      wake_cycle Env.ideal 1 sched_reg ⟨0, 0, []⟩ ≠ Outcome.fault ∧
      run_for Env.ideal 1 3 1 sched_reg ⟨0, 0, []⟩ ≠ Outcome.fault) ∧
    (Scheduler.init.tasks_ = [] ∧ (∀ k, (Env.ideal.elapse k : Int) < 1 * 1000000000) ∧
      wake_cycle Env.ideal 1 Scheduler.init ⟨0, 0, []⟩ = Outcome.fault ∧
      run_for Env.ideal 1 (3 + 1) 1 Scheduler.init ⟨0, 0, []⟩ = Outcome.fault) :=
  ⟨⟨by decide, stable_sort_contract,
      (first_task_lookup Env.ideal 1 3 1 sched_reg ⟨0, 0, []⟩).2.1 (by decide)
        stable_sort_contract⟩,
    ⟨rfl, fun _ => by simp [Env.ideal],
      (first_task_lookup Env.ideal 1 3 1 Scheduler.init ⟨0, 0, []⟩).2.2 rfl
        (fun _ => by simp [Env.ideal])⟩⟩

/-- The run of the empty scheduler, evaluated. -/
theorem run_for_empty_example :
    run_for Env.ideal 1 4 1 Scheduler.init ⟨0, 0, []⟩ = Outcome.fault := by
  decide

/-! ## Scheduler::run_for -/

/-- Claim C14. `run_for` on a scheduler that was never started behaves as
`start` at the current clock reading followed by `run_for`: every task begins
the loop with `next_release = that reading + period`, and with at least one
task (and a conforming sort) the outcome is not a fault. `run_for` on a
scheduler that is already started enters the loop with the tasks as they are;
after `start t0` those are the releases `start t0` left. -/
theorem run_for_anchoring (env : Env) (fuel cycles : Nat) (dur : Int) (s : Scheduler)
    (w : World) :
    (s.started_ = false →
      run_for env fuel cycles dur s w =
        run_for env fuel cycles dur (s.start (w.now env).1) (w.now env).2 ∧
      run_for env fuel cycles dur s w =
        run_once_until env fuel cycles (((w.now env).2.now env).1 + dur * 1000000000)
          (s.start (w.now env).1) ((w.now env).2.now env).2 ∧
      (∀ t ∈ (s.start (w.now env).1).tasks_,
        t.next_release = (w.now env).1 + t.spec.period) ∧
      (1 ≤ s.tasks_.length → StdSortContract env.sort →
        run_for env fuel cycles dur s w ≠ Outcome.fault)) ∧
    (s.started_ = true →
      run_for env fuel cycles dur s w =
        run_once_until env fuel cycles ((w.now env).1 + dur * 1000000000) s (w.now env).2) ∧
    (∀ t0, run_for env fuel cycles dur (s.start t0) w =
      run_once_until env fuel cycles ((w.now env).1 + dur * 1000000000) (s.start t0)
        (w.now env).2) := by
  refine ⟨?_, ?_, ?_⟩
  · intro hns
    refine ⟨?_, ?_, ?_, ?_⟩
    · simp [run_for, hns, Scheduler.start]
    · simp [run_for, hns]
    · intro t ht
      simp only [Scheduler.start, List.mem_map] at ht
      obtain ⟨u, _, rfl⟩ := ht
      rfl
    · intro hlen hs
      apply run_for_ne_fault env hs
      intro h0
      simp [h0] at hlen
  · intro hst
    simp [run_for, hst]
  · intro t0
    simp [run_for, Scheduler.start]

/-- Witness for `run_for_anchoring`: `sched_reg` is not started, `sched_prio` is
`sched_reg` after `start 0`. -/
theorem run_for_anchoring_witness :
    sched_reg.started_ = false ∧ sched_prio.started_ = true ∧
    1 ≤ sched_reg.tasks_.length ∧ StdSortContract Env.ideal.sort ∧
    run_for Env.ideal 1 3 1 sched_reg ⟨7, 0, []⟩ =
      run_for Env.ideal 1 3 1 (sched_reg.start ((World.mk 7 0 []).now Env.ideal).1)
        ((World.mk 7 0 []).now Env.ideal).2 ∧
    run_for Env.ideal 1 3 1 sched_reg ⟨7, 0, []⟩ ≠ Outcome.fault ∧
    run_for Env.ideal 1 3 1 sched_prio ⟨7, 0, []⟩ =
      run_once_until Env.ideal 1 3 (((World.mk 7 0 []).now Env.ideal).1 + 1 * 1000000000)
        sched_prio ((World.mk 7 0 []).now Env.ideal).2 :=
  ⟨rfl, rfl, by decide, stable_sort_contract,
    ((run_for_anchoring Env.ideal 1 3 1 sched_reg ⟨7, 0, []⟩).1 rfl).1,
    ((run_for_anchoring Env.ideal 1 3 1 sched_reg ⟨7, 0, []⟩).1 rfl).2.2.2 (by decide)
      stable_sort_contract,
    (run_for_anchoring Env.ideal 1 3 1 sched_prio ⟨7, 0, []⟩).2.1 rfl⟩

/-- The releases with which the loop of the witness above begins: 7 + 10 for
the scheduler that was not started, 0 + 10 for the one started at 0. -/
theorem run_for_anchor_example :
    (sched_reg.start ((World.mk 7 0 []).now Env.ideal).1).tasks_.map TaskRuntime.next_release
      = [17, 17] ∧
    sched_prio.tasks_.map TaskRuntime.next_release = [10, 10] := by
  decide

/-! ## Frame: what a dispatch leaves alone -/

theorem dispatch_state_spec (env : Env) (thr : Int) (fuel i : Nat) (t t1 : TaskRuntime)
    (w w1 : World) (h : (dispatch env thr fuel i t w).state = some (t1, w1)) :
    t1.spec = t.spec := by
  by_cases hc : t.spec.crit = Criticality.BestEffort ∧ thr > 0 ∧
      (w.now env).1 - t.next_release > thr
  · rw [dispatch_drop_eq env thr fuel i t w hc] at h
    cases hcu : catch_up fuel t.next_release t.spec.period (w.now env).1 with
    | done nr =>
      rw [hcu] at h
      simp only [Outcome.state, Option.some.injEq, Prod.mk.injEq] at h
      rw [← h.1]
    | spin nr =>
      rw [hcu] at h
      simp only [Outcome.state, Option.some.injEq, Prod.mk.injEq] at h
      rw [← h.1]
    | fault => rw [hcu] at h; simp [Outcome.state] at h
  · rw [dispatch_run_eq env thr fuel i t w hc] at h
    cases hcu : catch_up fuel t.next_release t.spec.period ((w.now env).2.now env).1 with
    | done nr =>
      rw [hcu] at h
      simp only [Outcome.state, Option.some.injEq, Prod.mk.injEq] at h
      rw [← h.1]
    | spin nr =>
      rw [hcu] at h
      simp only [Outcome.state, Option.some.injEq, Prod.mk.injEq] at h
      rw [← h.1]
    | fault => rw [hcu] at h; simp [Outcome.state] at h

theorem map_spec_set (ts : List TaskRuntime) (i : Nat) (t t1 : TaskRuntime)
    (hi : ts[i]? = some t) (hs : t1.spec = t.spec) :
    (ts.set i t1).map TaskRuntime.spec = ts.map TaskRuntime.spec := by
  apply List.ext_getElem?
  intro j
  by_cases hji : i = j
  · subst hji
    have hilt : i < ts.length := (List.getElem?_eq_some.mp hi).1
    have hget : ts[i] = t := (List.getElem?_eq_some.mp hi).2
    simp [List.getElem?_map, List.getElem?_set, hilt, hs, hget]
  · simp [List.getElem?_map, List.getElem?_set_ne hji]

/-- The dispatch loop, finished or not, touches only the tasks in its list and
keeps every spec. -/
theorem dispatch_all_state_frame (env : Env) (thr : Int) (fuel : Nat) (l : List Nat)
    (ts ts1 : List TaskRuntime) (w w1 : World)
    (h : (dispatch_all env thr fuel l ts w).state = some (ts1, w1)) :
    ts1.length = ts.length ∧ ts1.map TaskRuntime.spec = ts.map TaskRuntime.spec ∧
    ∀ j, j ∉ l → ts1[j]? = ts[j]? := by
  induction l generalizing ts w with
  | nil =>
    simp only [dispatch_all, Outcome.state, Option.some.injEq, Prod.mk.injEq] at h
    obtain ⟨rfl, rfl⟩ := h
    exact ⟨rfl, rfl, fun _ _ => rfl⟩
  | cons i rest ih =>
    unfold dispatch_all at h
    cases hi : ts[i]? with
    | none => rw [hi] at h; simp [Outcome.state] at h
    | some t =>
      rw [hi] at h
      simp only at h
      cases hd : dispatch env thr fuel i t w with
      | done p =>
        obtain ⟨t1, wm⟩ := p
        rw [hd] at h
        simp only at h
        have hs : t1.spec = t.spec :=
          dispatch_state_spec env thr fuel i t t1 w wm (by rw [hd]; rfl)
        obtain ⟨a, b, c⟩ := ih _ _ h
        refine ⟨by simpa using a, b.trans (map_spec_set ts i t t1 hi hs), ?_⟩
        intro j hj
        have hji : i ≠ j := fun e => hj (e ▸ List.mem_cons_self _ _)
        rw [c j (fun hm => hj (List.mem_cons_of_mem _ hm)), List.getElem?_set_ne hji]
      | spin p =>
        obtain ⟨t1, wm⟩ := p
        rw [hd] at h
        simp only [Outcome.state, Option.some.injEq, Prod.mk.injEq] at h
        obtain ⟨rfl, rfl⟩ := h
        have hs : t1.spec = t.spec :=
          dispatch_state_spec env thr fuel i t t1 w wm (by rw [hd]; rfl)
        refine ⟨by simp, map_spec_set ts i t t1 hi hs, ?_⟩
        intro j hj
        have hji : i ≠ j := fun e => hj (e ▸ List.mem_cons_self _ _)
        rw [List.getElem?_set_ne hji]
      | fault => rw [hd] at h; simp [Outcome.state] at h

theorem wake_cycle_state_spec (env : Env) (fuel : Nat) (s s1 : Scheduler) (w w1 : World)
    (h : (wake_cycle env fuel s w).state = some (s1, w1)) :
    s1.tasks_.map TaskRuntime.spec = s.tasks_.map TaskRuntime.spec := by
  cases he : earliest s.tasks_ with
  | none => simp [wake_cycle, he, Outcome.state] at h
  | some e =>
    rw [wake_cycle_eq env fuel s w e he] at h
    cases hd : dispatch_all env s.lateness_drop_threshold fuel
        (dispatch_order env s.tasks_ (cycle_now env e w)) s.tasks_ (cycle_world env e w) with
    | done p =>
      obtain ⟨ts, w3⟩ := p
      rw [hd] at h
      simp only [Outcome.state, Option.some.injEq, Prod.mk.injEq] at h
      rw [← h.1]
      exact (dispatch_all_state_frame env _ fuel _ _ ts _ w3 (by rw [hd]; rfl)).2.1
    | spin p =>
      obtain ⟨ts, w3⟩ := p
      rw [hd] at h
      simp only [Outcome.state, Option.some.injEq, Prod.mk.injEq] at h
      rw [← h.1]
      exact (dispatch_all_state_frame env _ fuel _ _ ts _ w3 (by rw [hd]; rfl)).2.1
    | fault => rw [hd] at h; simp [Outcome.state] at h

theorem run_once_until_state_spec (env : Env) (fuel cycles : Nat) (stop : Int)
    (s : Scheduler) (w : World) (r : Scheduler × World)
    (h : (run_once_until env fuel cycles stop s w).state = some r) :
    r.1.tasks_.map TaskRuntime.spec = s.tasks_.map TaskRuntime.spec := by
  induction cycles generalizing s w with
  | zero =>
    simp only [run_once_until, Outcome.state, Option.some.injEq] at h
    rw [← h]
  | succ n ih =>
    unfold run_once_until at h
    split at h
    · cases hw : wake_cycle env fuel s (w.now env).2 with
      | done p =>
        obtain ⟨s1, w1⟩ := p
        rw [hw] at h
        simp only at h
        rw [ih s1 w1 h]
        exact wake_cycle_state_spec env fuel s s1 _ w1 (by rw [hw]; rfl)
      | spin p =>
        obtain ⟨s1, w1⟩ := p
        rw [hw] at h
        simp only [Outcome.state, Option.some.injEq] at h
        rw [← h]
        exact wake_cycle_state_spec env fuel s s1 _ w1 (by rw [hw]; rfl)
      | fault => rw [hw] at h; simp [Outcome.state] at h
    · simp only [Outcome.state, Option.some.injEq] at h
      rw [← h]

theorem start_map_spec (s : Scheduler) (t0 : Int) :
    (s.start t0).tasks_.map TaskRuntime.spec = s.tasks_.map TaskRuntime.spec := by
  simp [Scheduler.start, Function.comp_def]

theorem run_for_state_spec (env : Env) (fuel cycles : Nat) (dur : Int)
    (s : Scheduler) (w : World) (r : Scheduler × World)
    (h : (run_for env fuel cycles dur s w).state = some r) :
    r.1.tasks_.map TaskRuntime.spec = s.tasks_.map TaskRuntime.spec := by
  unfold run_for at h
  rw [run_once_until_state_spec env fuel cycles _ _ _ r h]
  split
  · rfl
  · exact start_map_spec s _

/-- Claim C20. Dispatching the task at index `i`, run or dropped, finished or
still in its catch-up loop, leaves every other entry of `tasks_` exactly as it
was (spec, `next_release` and stats), keeps the number of tasks, and keeps
every spec in its place, the one of task `i` included. `start` keeps all specs
in place, and so does a whole `run_for`, which therefore also keeps the number
and the registration order of the tasks. -/
theorem dispatch_frame (env : Env) (thr : Int) (fuel i : Nat) (ts : List TaskRuntime)
    (w : World) :
    (∀ ts1 w1, (dispatch_all env thr fuel [i] ts w).state = some (ts1, w1) →
      ts1.length = ts.length ∧
      ts1.map TaskRuntime.spec = ts.map TaskRuntime.spec ∧
      ∀ j, j ≠ i → ts1[j]? = ts[j]?) ∧
    (∀ (s : Scheduler) (t0 : Int),
      (s.start t0).tasks_.map TaskRuntime.spec = s.tasks_.map TaskRuntime.spec ∧
      (s.start t0).tasks_.length = s.tasks_.length) ∧
    (∀ (cycles : Nat) (dur : Int) (s : Scheduler) (r : Scheduler × World),
      (run_for env fuel cycles dur s w).state = some r →
      r.1.tasks_.map TaskRuntime.spec = s.tasks_.map TaskRuntime.spec ∧
      r.1.tasks_.length = s.tasks_.length) := by
  refine ⟨?_, ?_, ?_⟩
  · intro ts1 w1 h
    obtain ⟨a, b, c⟩ := dispatch_all_state_frame env thr fuel [i] ts ts1 w w1 h
    exact ⟨a, b, fun j hj => c j (by simpa using hj)⟩
  · intro s t0
    exact ⟨start_map_spec s t0, by simp [Scheduler.start]⟩
  · intro cycles dur s r h
    have hm := run_for_state_spec env fuel cycles dur s w r h
    refine ⟨hm, ?_⟩
    have := congrArg List.length hm
    simpa using this

/-- Witness for `dispatch_frame`: dispatching task 0 of `sched_prio` at time 10
leaves task 1 as it was. -/
theorem dispatch_frame_witness :
    (dispatch_all Env.ideal 0 1 [0] sched_prio.tasks_ ⟨10, 0, []⟩).state =
      some (tasks_low_done, world_low_done) ∧
    tasks_low_done.length = sched_prio.tasks_.length ∧
    tasks_low_done.map TaskRuntime.spec = sched_prio.tasks_.map TaskRuntime.spec ∧
    ∀ j, j ≠ 0 → tasks_low_done[j]? = sched_prio.tasks_[j]? :=
  ⟨by decide,
    (dispatch_frame Env.ideal 0 1 0 sched_prio.tasks_ ⟨10, 0, []⟩).1
      tasks_low_done world_low_done (by decide)⟩

/-! ## Scenario A: one Hard task on an ideal clock -/

theorem now_of_ideal (env : Env) (hel : ∀ k, env.elapse k = 0) (w : World) :
    w.now env = (w.clk, ⟨w.clk, w.tick + 1, w.trace⟩) := by
  simp [World.now, hel]

/-- One wake cycle of a scheduler with a single Hard task on a clock that only
advances while sleeping: the task runs at its release instant with zero jitter
and zero execution time, and its release moves on by one period. -/
theorem wake_cycle_single_ideal (env : Env) (hel : ∀ k, env.elapse k = 0)
    (hs : StdSortContract env.sort) (fuel : Nat) (hfuel : 1 ≤ fuel) (thr : Int) (b : Bool)
    (spec : TaskSpec) (hh : spec.crit = Criticality.Hard) (hp : 0 < spec.period)
    (nr : Int) (st : TaskStats) (w : World) (hclk : w.clk ≤ nr) :
    ∃ w1, wake_cycle env fuel ⟨thr, [⟨spec, nr, st⟩], b⟩ w =
        Outcome.done (⟨thr, [⟨spec, nr + spec.period, st.observe 0 0 false⟩], b⟩, w1) ∧
      w1.clk = nr := by
  have he : earliest [(⟨spec, nr, st⟩ : TaskRuntime)] = some nr := by
    simp [earliest]
  have hnow : cycle_now env nr w = nr := by
    simp [cycle_now, World.sleep_until, now_of_ideal env hel, hclk]
  have hcw : (cycle_world env nr w).clk = nr := by
    simp [cycle_world, World.sleep_until, now_of_ideal env hel, hclk]
  have hready : collect_ready [(⟨spec, nr, st⟩ : TaskRuntime)] nr = [0] := by
    simp [collect_ready, List.range_succ]
  have horder : dispatch_order env [(⟨spec, nr, st⟩ : TaskRuntime)] nr = [0] := by
    unfold dispatch_order
    rw [hready]
    exact List.perm_singleton.mp (hs.perm _ _)
  obtain ⟨g, rfl⟩ : ∃ g, fuel = g + 1 := ⟨fuel - 1, by omega⟩
  have hc : ¬ ((⟨spec, nr, st⟩ : TaskRuntime).spec.crit = Criticality.BestEffort ∧ thr > 0 ∧
      ((cycle_world env nr w).now env).1 - (⟨spec, nr, st⟩ : TaskRuntime).next_release > thr) := by
    simp [hh]
  have hstart : start_time env (cycle_world env nr w) = nr := by
    simp [start_time, now_of_ideal env hel, hcw]
  have hfin : finish_time env (cycle_world env nr w) = nr := by
    simp [finish_time, now_of_ideal env hel, hcw]
  have hd : dispatch env thr (g + 1) 0 ⟨spec, nr, st⟩ (cycle_world env nr w) =
      Outcome.done (⟨spec, nr + spec.period, st.observe 0 0 false⟩,
        world_after_run env 0 (cycle_world env nr w)) := by
    rw [dispatch_run_eq env thr (g + 1) 0 _ _ hc]
    have hf : ((World.now env (cycle_world env nr w)).2.now env).1 = nr := hfin
    have hsv : (World.now env (cycle_world env nr w)).1 = nr := hstart
    have hcu : catch_up (g + 1) nr spec.period nr = Outcome.done (nr + spec.period) := by
      unfold catch_up
      rw [if_neg (by omega)]
    simp only [hf, hsv, hcu, sub_self, max_self, world_after_run, start_time, finish_time]
    have hov : decide (nr > nr + spec.period) = false := by
      simp only [decide_eq_false_iff_not]; omega
    rw [hov]
  refine ⟨world_after_run env 0 (cycle_world env nr w), ?_, ?_⟩
  · rw [wake_cycle_eq env (g + 1) _ w nr he]
    simp only [hnow, horder]
    unfold dispatch_all
    simp only [List.getElem?_cons_zero, hd, List.set_cons_zero, dispatch_all]
  · simp [world_after_run, World.record, now_of_ideal env hel, hcw]

/-- The loop of `run_once_until` for a single Hard task on an ideal clock:
when the stop instant lies `n` periods ahead it runs exactly `n` wake cycles. -/
theorem run_once_until_single_ideal (env : Env) (hel : ∀ k, env.elapse k = 0)
    (hs : StdSortContract env.sort) (fuel : Nat) (hfuel : 1 ≤ fuel) (thr : Int) (b : Bool)
    (spec : TaskSpec) (hh : spec.crit = Criticality.Hard) (hp : 0 < spec.period) (n : Nat) :
    ∀ (cycles : Nat) (st : TaskStats) (w : World), n + 1 ≤ cycles →
      ∃ w1, run_once_until env fuel cycles (w.clk + n * spec.period)
          ⟨thr, [⟨spec, w.clk + spec.period, st⟩], b⟩ w =
        Outcome.done (⟨thr, [⟨spec, w.clk + spec.period + n * spec.period,
          st.observe_all (List.replicate n ⟨0, 0, false⟩)⟩], b⟩, w1) := by
  induction n with
  | zero =>
    intro cycles st w hc
    obtain ⟨c, rfl⟩ : ∃ c, cycles = c + 1 := ⟨cycles - 1, by omega⟩
    unfold run_once_until
    simp [now_of_ideal env hel, TaskStats.observe_all]
  | succ n ih =>
    intro cycles st w hc
    obtain ⟨c, rfl⟩ : ∃ c, cycles = c + 1 := ⟨cycles - 1, by omega⟩
    unfold run_once_until
    have hlt : (w.now env).1 < w.clk + ((n + 1 : Nat) : Int) * spec.period := by
      rw [now_of_ideal env hel]
      have : 0 < ((n + 1 : Nat) : Int) * spec.period := mul_pos (by omega) hp
      simp only
      omega
    rw [if_pos hlt]
    obtain ⟨w1, hw, hclk⟩ := wake_cycle_single_ideal env hel hs fuel hfuel thr b spec hh hp
      (w.clk + spec.period) st (w.now env).2 (by rw [now_of_ideal env hel]; simp; omega)
    rw [hw]
    simp only
    obtain ⟨w2, h2⟩ := ih c (st.observe 0 0 false) w1 (by omega)
    rw [hclk] at h2
    have e1 : w.clk + ((n + 1 : Nat) : Int) * spec.period
        = w.clk + spec.period + (n : Int) * spec.period := by
      push_cast; ring
    have e2 : w.clk + spec.period + ((n + 1 : Nat) : Int) * spec.period
        = w.clk + spec.period + spec.period + (n : Int) * spec.period := by
      push_cast; ring
    rw [e1, e2, h2]
    exact ⟨w2, by simp [TaskStats.observe_all, List.replicate_succ]⟩

/-- Claim C15 (Scenario A). One Hard task of period 10 ms and priority 3 whose
work takes no time, registered on a scheduler that was never started;
`run_for` of one second (1000 ms) on a clock that advances only while sleeping
and resumes exactly at the requested instant, with any conforming sort. The
run finishes (101 loop tests and one catch-up iteration suffice) and leaves the
task with `releases = 100`, which lies in [99, 101], and `overruns = 0`. -/
theorem scenario_a (env : Env) (hel : ∀ k, env.elapse k = 0) (hs : StdSortContract env.sort)
    (name : String) (thr : Int) (w : World) (fuel cycles : Nat) (hfuel : 1 ≤ fuel)
    (hcyc : 101 ≤ cycles) :
    ∃ s1 w1 t,
      run_for env fuel cycles 1
        ((Scheduler.mk thr [] false).add_task ⟨name, 10000000, 3, Criticality.Hard⟩) w
          = Outcome.done (s1, w1) ∧
      s1.tasks_ = [t] ∧ t.stats.releases = 100 ∧
      99 ≤ t.stats.releases ∧ t.stats.releases ≤ 101 ∧ t.stats.overruns = 0 := by
  obtain ⟨w1, h⟩ := run_once_until_single_ideal env hel hs fuel hfuel thr true
    ⟨name, 10000000, 3, Criticality.Hard⟩ rfl (by norm_num) 100 cycles TaskStats.zero
    ((w.now env).2.now env).2 (by omega)
  have hrun : run_for env fuel cycles 1
      ((Scheduler.mk thr [] false).add_task ⟨name, 10000000, 3, Criticality.Hard⟩) w =
      run_once_until env fuel cycles (((w.now env).2.now env).2.clk + (100 : Nat) * 10000000)
        ⟨thr, [⟨⟨name, 10000000, 3, Criticality.Hard⟩,
          ((w.now env).2.now env).2.clk + 10000000, TaskStats.zero⟩], true⟩
        ((w.now env).2.now env).2 := by
    simp [run_for, Scheduler.add_task, Scheduler.start, now_of_ideal env hel]
  have hnn : ∀ o ∈ List.replicate 100 (Obs.mk 0 0 false), 0 ≤ o.jitter ∧ 0 ≤ o.exec := by
    intro o ho
    rw [List.eq_of_mem_replicate ho]
    exact ⟨le_refl _, le_refl _⟩
  obtain ⟨hrel, hov, _⟩ := observe_all_counts (List.replicate 100 (Obs.mk 0 0 false)) hnn
  have hrel100 : (TaskStats.zero.observe_all (List.replicate 100 (Obs.mk 0 0 false))).releases
      = 100 := by
    rw [hrel]; simp
  have hov0 : (TaskStats.zero.observe_all (List.replicate 100 (Obs.mk 0 0 false))).overruns
      = 0 := by
    rw [hov]; simp [List.countP_replicate]
  refine ⟨_, w1, _, hrun.trans h, rfl, hrel100, ?_, ?_, hov0⟩
  · rw [hrel100]; decide
  · rw [hrel100]; decide

/-- Witness for `scenario_a`: the ideal clock, the sensor task of `main`, world
starting at clock 0, fuel 1 and 101 loop tests. -/
theorem scenario_a_witness :
    (∀ k, Env.ideal.elapse k = 0) ∧ StdSortContract Env.ideal.sort ∧ 1 ≤ 1 ∧ 101 ≤ 101 ∧
    ∃ s1 w1 t,
      run_for Env.ideal 1 101 1
        ((Scheduler.mk 0 [] false).add_task ⟨"sensor_10ms", 10000000, 3, Criticality.Hard⟩)
        ⟨0, 0, []⟩ = Outcome.done (s1, w1) ∧
      s1.tasks_ = [t] ∧ t.stats.releases = 100 ∧
      99 ≤ t.stats.releases ∧ t.stats.releases ≤ 101 ∧ t.stats.overruns = 0 :=
  ⟨fun _ => rfl, stable_sort_contract, le_refl _, le_refl _,
    scenario_a Env.ideal (fun _ => rfl) stable_sort_contract "sensor_10ms" 0 ⟨0, 0, []⟩ 1 101
      (le_refl _) (le_refl _)⟩

end MiniRtos
